import Mathlib

/-!
Verification of the TinyLLVM repository: a shallow embedding of the
EventChains runtime (src/src/eventchains.c) and of the CoreTiny compiler
pipeline (lexer, parser, type checker, code generators) into Lean 4,
together with theorems settling the specification claims.

Modelling conventions:
  * C strings used as context keys are byte lists (`List Nat`, bytes 1..255,
    the terminating NUL is implicit); reading index `i` of a C string is
    `List.getD s i 0`, which agrees with the byte actually read for every
    index up to and including the terminator position.
  * Payload pointers (`void *`) are modelled as `Nat`.
  * Allocation (`malloc`/`realloc`/`strdup`) is assumed to succeed; the
    out-of-memory branches of the C code are therefore not taken.
  * Loops whose termination is by progress through the input carry an
    explicit fuel argument instantiated with a bound that the C loop can
    never exceed (one iteration consumes at least one input element).
-/

namespace EC

/-- Error codes, mirroring `EventChainErrorCode` in eventchains.h. -/
abbrev ErrCode := Nat

def EC_SUCCESS : ErrCode := 0
def EC_ERROR_NULL_POINTER : ErrCode := 1
def EC_ERROR_INVALID_PARAMETER : ErrCode := 2
def EC_ERROR_OUT_OF_MEMORY : ErrCode := 3
def EC_ERROR_CAPACITY_EXCEEDED : ErrCode := 4
def EC_ERROR_KEY_TOO_LONG : ErrCode := 5
def EC_ERROR_NOT_FOUND : ErrCode := 7
def EC_ERROR_REENTRANCY : ErrCode := 11
def EC_ERROR_MEMORY_LIMIT_EXCEEDED : ErrCode := 12

def EVENTCHAINS_MAX_EVENTS : Nat := 1024
def EVENTCHAINS_MAX_MIDDLEWARE : Nat := 16
def EVENTCHAINS_MAX_CONTEXT_ENTRIES : Nat := 512
def EVENTCHAINS_MAX_CONTEXT_MEMORY : Nat := 10485760
def EVENTCHAINS_MAX_NAME_LENGTH : Nat := 256
def EVENTCHAINS_MAX_KEY_LENGTH : Nat := 256
def INITIAL_CAPACITY : Nat := 8
def GROWTH_FACTOR : Nat := 2

/-- `sizeof(RefCountedValue)` on the x86_64 build the repository targets:
two pointers plus an atomic `size_t`. -/
def sizeofRefCountedValue : Nat := 24

/-- A context key: the bytes of a NUL-terminated C string (terminator not
stored).  A representable key has no 0 byte and bytes below 256. -/
abbrev Key := List Nat

/-- Byte `i` of the C string `s` (the implicit terminator and anything the
code may read at or beyond it is 0). -/
def strGet (s : Key) (i : Nat) : Nat := s.getD i 0

/-- A key every byte of which is a representable non-NUL C character. -/
def validBytes (k : Key) : Prop := ∀ b ∈ k, 1 ≤ b ∧ b ≤ 255

instance (k : Key) : Decidable (validBytes k) := by
  unfold validBytes; infer_instance

/-- Well-formed key as accepted by `event_context_set_with_cleanup`:
length between 1 and `EVENTCHAINS_MAX_KEY_LENGTH`, representable bytes. -/
def wellFormedKey (k : Key) : Prop :=
  1 ≤ k.length ∧ k.length ≤ EVENTCHAINS_MAX_KEY_LENGTH ∧ validBytes k

instance (k : Key) : Decidable (wellFormedKey k) := by
  unfold wellFormedKey; infer_instance

/-- One entry of the context: owned key plus the payload of its
reference-counted value (eventchains.h `ContextEntry`). -/
structure ContextEntry where
  key : Key
  value : Nat
  deriving DecidableEq, Repr

/-- The context state observable through the API: the entry array, its
capacity, and the memory accounting counter (eventchains.h
`EventContext`; the mutex is irrelevant to the sequential model). -/
structure EventContext where
  entries : List ContextEntry
  capacity : Nat
  totalMemory : Nat
  deriving DecidableEq, Repr

/-- `event_context_create`. -/
def event_context_create : EventContext :=
  { entries := []
    capacity := INITIAL_CAPACITY
    totalMemory := 64 + INITIAL_CAPACITY * 24 }

def findEntryAux (key : Key) : List ContextEntry → Nat → Option Nat
  | [], _ => none
  | e :: rest, i => if e.key = key then some i else findEntryAux key rest (i + 1)

/-- `find_entry`: index of the first entry whose key compares equal
(`strcmp == 0`, which for NUL-free byte lists is list equality). -/
def find_entry (ctx : EventContext) (key : Key) : Option Nat :=
  findEntryAux key ctx.entries 0

/-- `ensure_capacity`. -/
def ensure_capacity (ctx : EventContext) : ErrCode × EventContext :=
  if ctx.entries.length < ctx.capacity then (EC_SUCCESS, ctx)
  else if EVENTCHAINS_MAX_CONTEXT_ENTRIES ≤ ctx.entries.length then
    (EC_ERROR_CAPACITY_EXCEEDED, ctx)
  else
    (EC_SUCCESS, { ctx with
      capacity := min (ctx.capacity * GROWTH_FACTOR) EVENTCHAINS_MAX_CONTEXT_ENTRIES })

/-- Replace the value stored at index `i`, keeping the key buffer. -/
def setValueAt : List ContextEntry → Nat → Nat → List ContextEntry
  | [], _, _ => []
  | e :: rest, 0, v => { e with value := v } :: rest
  | e :: rest, i + 1, v => e :: setValueAt rest i v

/-- `event_context_set_with_cleanup` (the cleanup callback does not affect
the observable context state). -/
def event_context_set (ctx : EventContext) (key : Key) (v : Nat) :
    ErrCode × EventContext :=
  let keyLen := key.length
  if keyLen = 0 ∨ EVENTCHAINS_MAX_KEY_LENGTH < keyLen then
    (EC_ERROR_KEY_TOO_LONG, ctx)
  else
    let additionalMemory := keyLen + 1 + sizeofRefCountedValue
    if EVENTCHAINS_MAX_CONTEXT_MEMORY < ctx.totalMemory + additionalMemory then
      (EC_ERROR_MEMORY_LIMIT_EXCEEDED, ctx)
    else
      match find_entry ctx key with
      | some idx =>
          (EC_SUCCESS, { ctx with entries := setValueAt ctx.entries idx v })
      | none =>
          match ensure_capacity ctx with
          | (err, ctx1) =>
            if err ≠ EC_SUCCESS then (err, ctx1)
            else
              (EC_SUCCESS, { ctx1 with
                entries := ctx1.entries ++ [⟨key, v⟩]
                totalMemory := ctx1.totalMemory + additionalMemory })

/-- Entry at index `i` (only used at indices `find_entry` returned). -/
def entryAt (l : List ContextEntry) (i : Nat) : ContextEntry :=
  l.getD i ⟨[], 0⟩

/-- `event_context_get`: the payload pointer of the entry, or `none` for
`EC_ERROR_NOT_FOUND`. -/
def event_context_get (ctx : EventContext) (key : Key) : Option Nat :=
  match find_entry ctx key with
  | none => none
  | some idx => some (entryAt ctx.entries idx).value

/-- The loop of `constant_time_strcmp`: `fuel` counts the iterations left
(`fuel + i = max_len` at every call), `r` is the accumulated `result`. -/
def ctLoop (a b : Key) : Nat → Nat → Nat → Bool
  | 0, i, r => decide (r = 0 ∧ strGet a i = strGet b i)
  | fuel + 1, i, r =>
      let x := strGet a i
      let y := strGet b i
      let r2 := r ||| (x ^^^ y)
      if x = 0 ∨ y = 0 then decide (r2 = 0 ∧ x = y)
      else ctLoop a b fuel (i + 1) r2

/-- `constant_time_strcmp` (both pointers non-NULL in the model). -/
def constant_time_strcmp (a b : Key) (maxLen : Nat) : Bool :=
  ctLoop a b maxLen 0 0

/-- `event_context_has`: constant-time mode walks every entry and records a
match without short-circuiting; standard mode is `find_entry`. -/
def event_context_has (ctx : EventContext) (key : Key) (constantTime : Bool) :
    Bool :=
  if constantTime then
    ctx.entries.foldl
      (fun found e =>
        if constant_time_strcmp e.key key EVENTCHAINS_MAX_KEY_LENGTH then true
        else found)
      false
  else
    (find_entry ctx key).isSome

/-- Fault tolerance modes (eventchains.h `FaultToleranceMode`). -/
inductive FaultToleranceMode where
  | STRICT
  | LENIENT
  | BEST_EFFORT
  | CUSTOM
  deriving DecidableEq, Repr

/-- `EventResult`: the outcome one event's pipeline produces.  The message
buffer in C holds at most `EVENTCHAINS_MAX_ERROR_LENGTH - 1` characters, so
every representable result round-trips losslessly below. -/
structure EventResult where
  success : Bool
  errorCode : ErrCode
  errorMessage : String
  deriving DecidableEq, Repr

/-- `FailureInfo` recorded into a `ChainResult`.  The name and message
buffers are at least as large as their sources, so the `safe_strncpy`
copies are lossless. -/
structure FailureInfo where
  eventName : String
  errorMessage : String
  errorCode : ErrCode
  deriving DecidableEq, Repr

/-- `ChainResult`. -/
structure ChainResult where
  success : Bool
  failures : List FailureInfo
  deriving DecidableEq, Repr

/-- A registered failure handler abstracted to what it can observe of a
failing event: the event's name and the `EventResult` (the C handler also
receives the chain pointer and its own user data, which are fixed for a
given chain and therefore absorbed into the function). -/
abbrev FailureHandler := String → EventResult → Bool

/-- The `should_continue` computation of `event_chain_execute` for one
failing event. -/
def should_continue (mode : FaultToleranceMode) (handler : Option FailureHandler)
    (name : String) (r : EventResult) : Bool :=
  match mode with
  | .STRICT => false
  | .LENIENT => true
  | .BEST_EFFORT => true
  | .CUSTOM =>
      match handler with
      | some h => h name r
      | none => false

/-- The event loop of `event_chain_execute`: each list element is the name
of an event together with the `EventResult` its middleware pipeline
produces when reached.  Returns the recorded failures and the `success`
flag as of loop exit (failure recording always succeeds in the model). -/
def executeEvents (mode : FaultToleranceMode) (handler : Option FailureHandler) :
    List (String × EventResult) → List FailureInfo × Bool
  | [] => ([], true)
  | (name, r) :: rest =>
      if r.success then executeEvents mode handler rest
      else
        let cont := should_continue mode handler name r
        let fi : FailureInfo := ⟨name, r.errorMessage, r.errorCode⟩
        if cont then
          let (fs, s) := executeEvents mode handler rest
          (fi :: fs, s)
        else
          ([fi], false)

/-- `event_chain_execute` on the path where the reentrancy test-and-set
succeeded: run the loop, then apply the final strict-mode verdict. -/
def event_chain_execute (mode : FaultToleranceMode)
    (handler : Option FailureHandler) (events : List (String × EventResult)) :
    ChainResult :=
  let (fs, s) := executeEvents mode handler events
  let s := if 0 < fs.length ∧ mode = .STRICT then false else s
  ⟨s, fs⟩

/-- The continue-decision reconstructed from a recorded `FailureInfo`.
A recorded failure preserves the failing result exactly (its `success`
field was `false`, code and message are copied), so this equals the
decision taken during execution. -/
def failureDecision (mode : FaultToleranceMode) (handler : Option FailureHandler)
    (fi : FailureInfo) : Bool :=
  should_continue mode handler fi.eventName ⟨false, fi.errorCode, fi.errorMessage⟩

/-- The chain state mutated by registration calls: events and middlewares
are opaque descriptor pointers (`Nat`), the failure handler is a function
pointer plus user-data pointer. -/
structure EventChain where
  events : List Nat
  eventCapacity : Nat
  middlewares : List Nat
  middlewareCapacity : Nat
  failureHandler : Option Nat
  failureHandlerData : Nat
  isExecuting : Bool
  deriving DecidableEq, Repr

/-- `ensure_event_capacity`. -/
def ensure_event_capacity (chain : EventChain) : ErrCode × EventChain :=
  if chain.events.length < chain.eventCapacity then (EC_SUCCESS, chain)
  else if EVENTCHAINS_MAX_EVENTS ≤ chain.events.length then
    (EC_ERROR_CAPACITY_EXCEEDED, chain)
  else
    let newCap := if chain.eventCapacity = 0 then INITIAL_CAPACITY
                  else chain.eventCapacity * GROWTH_FACTOR
    (EC_SUCCESS, { chain with eventCapacity := min newCap EVENTCHAINS_MAX_EVENTS })

/-- `event_chain_add_event` (both pointers non-NULL in the model). -/
def event_chain_add_event (chain : EventChain) (event : Nat) :
    ErrCode × EventChain :=
  if chain.isExecuting then (EC_ERROR_REENTRANCY, chain)
  else
    match ensure_event_capacity chain with
    | (err, chain1) =>
      if err ≠ EC_SUCCESS then (err, chain1)
      else (EC_SUCCESS, { chain1 with events := chain1.events ++ [event] })

/-- `ensure_middleware_capacity`. -/
def ensure_middleware_capacity (chain : EventChain) : ErrCode × EventChain :=
  if chain.middlewares.length < chain.middlewareCapacity then (EC_SUCCESS, chain)
  else if EVENTCHAINS_MAX_MIDDLEWARE ≤ chain.middlewares.length then
    (EC_ERROR_CAPACITY_EXCEEDED, chain)
  else
    let newCap := if chain.middlewareCapacity = 0 then INITIAL_CAPACITY
                  else chain.middlewareCapacity * GROWTH_FACTOR
    (EC_SUCCESS,
      { chain with middlewareCapacity := min newCap EVENTCHAINS_MAX_MIDDLEWARE })

/-- `event_chain_use_middleware` (both pointers non-NULL in the model). -/
def event_chain_use_middleware (chain : EventChain) (middleware : Nat) :
    ErrCode × EventChain :=
  if chain.isExecuting then (EC_ERROR_REENTRANCY, chain)
  else
    match ensure_middleware_capacity chain with
    | (err, chain1) =>
      if err ≠ EC_SUCCESS then (err, chain1)
      else
        (EC_SUCCESS,
          { chain1 with middlewares := chain1.middlewares ++ [middleware] })

/-- `event_chain_set_failure_handler` (chain pointer non-NULL in the
model): installs the handler unconditionally — the source contains no
`is_executing` check here. -/
def event_chain_set_failure_handler (chain : EventChain) (handler : Option Nat)
    (userData : Nat) : ErrCode × EventChain :=
  (EC_SUCCESS,
    { chain with failureHandler := handler, failureHandlerData := userData })

/-- A chain whose `is_executing` flag is set, as seen from inside an
execution. -/
def executingChain : EventChain :=
  { events := [10]
    eventCapacity := 8
    middlewares := []
    middlewareCapacity := 0
    failureHandler := none
    failureHandlerData := 0
    isExecuting := true }

/-- A key representable as a C string within the length cap. -/
def cKeyOk (k : Key) : Prop :=
  k.length ≤ EVENTCHAINS_MAX_KEY_LENGTH ∧ validBytes k

instance (k : Key) : Decidable (cKeyOk k) := by
  unfold cKeyOk; infer_instance

/-- A small concrete context for the C10 witness. -/
def ctxHas : EventContext := ⟨[⟨[5], 1⟩, ⟨[6, 7], 2⟩], 8, 300⟩

/-- A context filled with 512 distinct two-byte keys. -/
def ctx512 : EventContext :=
  ⟨(List.range 512).map (fun i => ⟨[1 + i / 255, 1 + i % 255], 0⟩), 512, 200000⟩

end EC

namespace TinyLLVM

/-- `TypeKind`/`Type` of tinyllvm_ast.h (the struct has a single `kind`
field, so the enum is the type). -/
inductive Ty where
  | int
  | bool
  | void
  deriving DecidableEq, Repr

def type_int : Ty := .int
def type_bool : Ty := .bool
def type_void : Ty := .void

def type_to_string : Ty → String
  | .int => "int"
  | .bool => "bool"
  | .void => "void"

def type_equals (a b : Ty) : Bool := a == b

/-- Binary and unary operation kinds (the operator part of `ExprKind`). -/
inductive ExprKind where
  | EXPR_ADD | EXPR_SUB | EXPR_MUL | EXPR_DIV | EXPR_MOD
  | EXPR_EQ | EXPR_NE | EXPR_LT | EXPR_LE | EXPR_GT | EXPR_GE
  | EXPR_AND | EXPR_OR | EXPR_NOT
  deriving DecidableEq, Repr

/-- `ASTExpr`: the tag/union flattened into constructors, each carrying the
`type` annotation field. -/
inductive ASTExpr where
  | intLit (ty : Ty) (value : Int)
  | boolLit (ty : Ty) (value : Bool)
  | var (ty : Ty) (name : String)
  | binary (ty : Ty) (kind : ExprKind) (left right : ASTExpr)
  | unary (ty : Ty) (kind : ExprKind) (operand : ASTExpr)
  | call (ty : Ty) (funcName : String) (args : List ASTExpr)
  deriving Repr

/-- The `type` field of an expression node. -/
def ASTExpr.ty : ASTExpr → Ty
  | .intLit t _ => t
  | .boolLit t _ => t
  | .var t _ => t
  | .binary t _ _ _ => t
  | .unary t _ _ => t
  | .call t _ _ => t

/-- `ASTStmt`. -/
inductive ASTStmt where
  | varDecl (name : String) (ty : Ty) (initExpr : ASTExpr)
  | assign (name : String) (expr : ASTExpr)
  | ifS (condition : ASTExpr) (thenBlock : ASTStmt) (elseBlock : Option ASTStmt)
  | whileS (condition : ASTExpr) (body : ASTStmt)
  | returnS (expr : Option ASTExpr)
  | exprS (expr : ASTExpr)
  | blockS (statements : List ASTStmt)
  deriving Repr

structure Param where
  name : String
  ty : Ty
  deriving Repr

structure ASTFunc where
  name : String
  params : List Param
  returnType : Ty
  body : ASTStmt
  deriving Repr

structure ASTProgram where
  functions : List ASTFunc
  deriving Repr

/-- Constructors from tinyllvm_ast.c, with their syntactic default types. -/
def ast_expr_int_literal (value : Int) : ASTExpr := .intLit type_int value

def ast_expr_bool_literal (value : Bool) : ASTExpr := .boolLit type_bool value

def ast_expr_var (name : String) : ASTExpr := .var type_int name

def ast_expr_binary (kind : ExprKind) (left right : ASTExpr) : ASTExpr :=
  let ty := match kind with
    | .EXPR_EQ | .EXPR_NE | .EXPR_LT | .EXPR_LE | .EXPR_GT | .EXPR_GE
    | .EXPR_AND | .EXPR_OR => type_bool
    | _ => type_int
  .binary ty kind left right

def ast_expr_unary (kind : ExprKind) (operand : ASTExpr) : ASTExpr :=
  .unary type_bool kind operand

def ast_expr_call (funcName : String) (args : List ASTExpr) : ASTExpr :=
  .call type_int funcName args

def ast_stmt_var_decl (name : String) (ty : Ty) (initExpr : ASTExpr) : ASTStmt :=
  .varDecl name ty initExpr

def ast_stmt_assign (name : String) (expr : ASTExpr) : ASTStmt := .assign name expr

def ast_stmt_if (c : ASTExpr) (t : ASTStmt) (e : Option ASTStmt) : ASTStmt :=
  .ifS c t e

def ast_stmt_while (c : ASTExpr) (b : ASTStmt) : ASTStmt := .whileS c b

def ast_stmt_return (e : Option ASTExpr) : ASTStmt := .returnS e

def ast_stmt_expr (e : ASTExpr) : ASTStmt := .exprS e

def ast_stmt_block (stmts : List ASTStmt) : ASTStmt := .blockS stmts

def ast_func_create (name : String) (params : List Param) (returnType : Ty)
    (body : ASTStmt) : ASTFunc :=
  ⟨name, params, returnType, body⟩

def ast_program_create (functions : List ASTFunc) : ASTProgram := ⟨functions⟩

/-- `TokenKind` of tinyllvm_compiler.h. -/
inductive TokenKind where
  | TOKEN_FUNC | TOKEN_VAR | TOKEN_IF | TOKEN_ELSE | TOKEN_WHILE
  | TOKEN_RETURN | TOKEN_TRUE | TOKEN_FALSE
  | TOKEN_INT | TOKEN_BOOL
  | TOKEN_IDENTIFIER | TOKEN_INT_LITERAL
  | TOKEN_PLUS | TOKEN_MINUS | TOKEN_STAR | TOKEN_SLASH | TOKEN_PERCENT
  | TOKEN_EQ | TOKEN_NE | TOKEN_LT | TOKEN_LE | TOKEN_GT | TOKEN_GE
  | TOKEN_AND | TOKEN_OR | TOKEN_NOT
  | TOKEN_ASSIGN | TOKEN_SEMICOLON | TOKEN_COLON | TOKEN_COMMA
  | TOKEN_LPAREN | TOKEN_RPAREN | TOKEN_LBRACE | TOKEN_RBRACE
  | TOKEN_EOF | TOKEN_ERROR
  deriving DecidableEq, Repr

/-- `Token`: the lexeme is the owned copy of the source slice. -/
structure Token where
  kind : TokenKind
  lexeme : String
  length : Nat
  value : Int
  line : Nat
  column : Nat
  deriving DecidableEq, Repr

/-- The value `atoi` computes on a digits-only lexeme (overflow behaviour
of the platform `atoi` is out of the model; all literals in the claims fit
in `int`). -/
def atoiModel (digits : List Char) : Int :=
  Int.ofNat (digits.foldl (fun a c => a * 10 + (c.toNat - 48)) 0)

/-- `token_create` (allocation succeeds). -/
def token_create (kind : TokenKind) (lexeme : List Char) (length : Nat)
    (line column : Nat) : Token :=
  { kind := kind
    lexeme := if 0 < length then String.mk lexeme else ""
    length := length
    value := if kind = .TOKEN_INT_LITERAL ∧ 0 < length then atoiModel lexeme else 0
    line := line
    column := column }

/-- Lexer state (tinyllvm_lexer.c `Lexer`, the token list kept apart). -/
structure LexState where
  src : List Char
  current : Nat
  line : Nat
  column : Nat
  deriving Repr

def nulChar : Char := Char.ofNat 0
def lbraceChar : Char := Char.ofNat 123
def rbraceChar : Char := Char.ofNat 125

def lexer_is_at_end (st : LexState) : Bool := decide (st.src.length ≤ st.current)

def lexer_peek (st : LexState) : Char :=
  if lexer_is_at_end st then nulChar else st.src.getD st.current nulChar

def lexer_peek_next (st : LexState) : Char :=
  if st.src.length ≤ st.current + 1 then nulChar
  else st.src.getD (st.current + 1) nulChar

def lexer_advance (st : LexState) : Char × LexState :=
  if lexer_is_at_end st then (nulChar, st)
  else
    let c := st.src.getD st.current nulChar
    if c = '\n' then
      (c, { st with current := st.current + 1, line := st.line + 1, column := 0 })
    else
      (c, { st with current := st.current + 1, column := st.column + 1 })

def lexer_match (st : LexState) (expected : Char) : Bool × LexState :=
  if lexer_is_at_end st then (false, st)
  else if st.src.getD st.current nulChar ≠ expected then (false, st)
  else (true, (lexer_advance st).2)

def is_alpha (c : Char) : Bool :=
  (decide (97 ≤ c.toNat) && decide (c.toNat ≤ 122)) ||
  (decide (65 ≤ c.toNat) && decide (c.toNat ≤ 90)) ||
  decide (c.toNat = 95)

def is_digit (c : Char) : Bool :=
  decide (48 ≤ c.toNat) && decide (c.toNat ≤ 57)

def is_alnum (c : Char) : Bool := is_alpha c || is_digit c

/-- Inner loop of the line-comment branch of `skip_whitespace`. -/
def skip_line_comment : Nat → LexState → LexState
  | 0, st => st
  | fuel + 1, st =>
      if !lexer_is_at_end st && !(lexer_peek st == '\n') then
        skip_line_comment fuel (lexer_advance st).2
      else st

/-- Inner loop of the block-comment branch of `skip_whitespace` (an
unterminated comment consumes to end of input). -/
def skip_block_comment : Nat → LexState → LexState
  | 0, st => st
  | fuel + 1, st =>
      if lexer_is_at_end st then st
      else if lexer_peek st == '*' && lexer_peek_next st == '/' then
        (lexer_advance (lexer_advance st).2).2
      else skip_block_comment fuel (lexer_advance st).2

/-- Fuel bound for a loop that consumes at least one character per
iteration: the characters left plus one. -/
def remFuel (st : LexState) : Nat := st.src.length - st.current + 1

/-- `skip_whitespace`; every outer iteration consumes at least one
character, so `remFuel` iterations always finish the loop. -/
def skip_whitespace : Nat → LexState → LexState
  | 0, st => st
  | fuel + 1, st =>
      if lexer_is_at_end st then st
      else
        let c := lexer_peek st
        if c == ' ' || c == '\r' || c == '\t' || c == '\n' then
          skip_whitespace fuel (lexer_advance st).2
        else if c == '/' && lexer_peek_next st == '/' then
          skip_whitespace fuel (skip_line_comment (remFuel st) st)
        else if c == '/' && lexer_peek_next st == '*' then
          skip_whitespace fuel
            (skip_block_comment (remFuel st) (lexer_advance (lexer_advance st).2).2)
        else st

/-- `identifier_type`: the C dispatches on the first character, but every
branch ends by deciding exact equality against a single keyword, so the
kind is the one of the keyword equal to the lexeme, else `IDENTIFIER`. -/
def identifier_type (lexeme : List Char) : TokenKind :=
  if lexeme = "bool".toList then .TOKEN_BOOL
  else if lexeme = "else".toList then .TOKEN_ELSE
  else if lexeme = "func".toList then .TOKEN_FUNC
  else if lexeme = "false".toList then .TOKEN_FALSE
  else if lexeme = "if".toList then .TOKEN_IF
  else if lexeme = "int".toList then .TOKEN_INT
  else if lexeme = "return".toList then .TOKEN_RETURN
  else if lexeme = "true".toList then .TOKEN_TRUE
  else if lexeme = "var".toList then .TOKEN_VAR
  else if lexeme = "while".toList then .TOKEN_WHILE
  else .TOKEN_IDENTIFIER

/-- The while loop of `scan_identifier`. -/
def ident_loop : Nat → LexState → LexState
  | 0, st => st
  | fuel + 1, st =>
      if is_alnum (lexer_peek st) then ident_loop fuel (lexer_advance st).2
      else st

/-- `scan_identifier` (the first character is already consumed). -/
def scan_identifier (st : LexState) : Token × LexState :=
  let start := st.current - 1
  let startColumn := st.column - 1
  let st2 := ident_loop (remFuel st) st
  let length := st2.current - start
  let lexeme := (st.src.drop start).take length
  (token_create (identifier_type lexeme) lexeme length st2.line startColumn, st2)

/-- The while loop of `scan_number`. -/
def digit_loop : Nat → LexState → LexState
  | 0, st => st
  | fuel + 1, st =>
      if is_digit (lexer_peek st) then digit_loop fuel (lexer_advance st).2
      else st

/-- `scan_number` (the first digit is already consumed). -/
def scan_number (st : LexState) : Token × LexState :=
  let start := st.current - 1
  let startColumn := st.column - 1
  let st2 := digit_loop (remFuel st) st
  let length := st2.current - start
  let lexeme := (st.src.drop start).take length
  (token_create .TOKEN_INT_LITERAL lexeme length st2.line startColumn, st2)

/-- A two-character operator candidate: emit `twoKind` if the next
character matches `second`, else `oneKind` with the single character. -/
def scan_two_char (st1 : LexState) (c second : Char) (twoKind oneKind : TokenKind)
    (startColumn : Nat) : Token × LexState :=
  let m := lexer_match st1 second
  if m.1 then (token_create twoKind [c, second] 2 m.2.line startColumn, m.2)
  else (token_create oneKind [c] 1 m.2.line startColumn, m.2)

/-- The character dispatch of `scan_token` after the first character `c`
has been consumed (the body of the C `switch`). -/
def scan_symbol (st1 : LexState) (c : Char) (startColumn : Nat) :
    Token × LexState :=
  if is_alpha c then scan_identifier st1
    else if is_digit c then scan_number st1
    else if c == '(' then (token_create .TOKEN_LPAREN [c] 1 st1.line startColumn, st1)
    else if c == ')' then (token_create .TOKEN_RPAREN [c] 1 st1.line startColumn, st1)
    else if c == lbraceChar then (token_create .TOKEN_LBRACE [c] 1 st1.line startColumn, st1)
    else if c == rbraceChar then (token_create .TOKEN_RBRACE [c] 1 st1.line startColumn, st1)
    else if c == ';' then (token_create .TOKEN_SEMICOLON [c] 1 st1.line startColumn, st1)
    else if c == ':' then (token_create .TOKEN_COLON [c] 1 st1.line startColumn, st1)
    else if c == ',' then (token_create .TOKEN_COMMA [c] 1 st1.line startColumn, st1)
    else if c == '+' then (token_create .TOKEN_PLUS [c] 1 st1.line startColumn, st1)
    else if c == '-' then (token_create .TOKEN_MINUS [c] 1 st1.line startColumn, st1)
    else if c == '*' then (token_create .TOKEN_STAR [c] 1 st1.line startColumn, st1)
    else if c == '/' then (token_create .TOKEN_SLASH [c] 1 st1.line startColumn, st1)
    else if c == '%' then (token_create .TOKEN_PERCENT [c] 1 st1.line startColumn, st1)
    else if c == '=' then scan_two_char st1 c '=' .TOKEN_EQ .TOKEN_ASSIGN startColumn
    else if c == '!' then scan_two_char st1 c '=' .TOKEN_NE .TOKEN_NOT startColumn
    else if c == '<' then scan_two_char st1 c '=' .TOKEN_LE .TOKEN_LT startColumn
    else if c == '>' then scan_two_char st1 c '=' .TOKEN_GE .TOKEN_GT startColumn
    else if c == '&' then scan_two_char st1 c '&' .TOKEN_AND .TOKEN_ERROR startColumn
    else if c == '|' then scan_two_char st1 c '|' .TOKEN_OR .TOKEN_ERROR startColumn
    else (token_create .TOKEN_ERROR [c] 1 st1.line startColumn, st1)

/-- `scan_token`: always produces exactly one token (allocation
succeeds). -/
def scan_token (st0 : LexState) : Token × LexState :=
  let st := skip_whitespace (remFuel st0) st0
  if lexer_is_at_end st then
    (token_create .TOKEN_EOF [] 0 st.line st.column, st)
  else
    let startColumn := st.column
    let (c, st1) := lexer_advance st
    scan_symbol st1 c startColumn

/-- The scanning loop of `lex_source`; stops as soon as the token just
added is `EOF`. -/
def lexLoop : Nat → LexState → List Token → List Token × LexState
  | 0, st, acc => (acc, st)
  | fuel + 1, st, acc =>
      if lexer_is_at_end st then (acc, st)
      else
        let (t, st2) := scan_token st
        let acc2 := acc ++ [t]
        if t.kind = .TOKEN_EOF then (acc2, st2)
        else lexLoop fuel st2 acc2

/-- `lex_source` together with the final scanner state. -/
def lex_source_full (source : List Char) : List Token × LexState :=
  let st0 : LexState := ⟨source, 0, 1, 0⟩
  let (toks, stF) := lexLoop (source.length + 1) st0 []
  match toks.getLast? with
  | some t =>
      if t.kind = .TOKEN_EOF then (toks, stF)
      else (toks ++ [token_create .TOKEN_EOF [] 0 stF.line stF.column], stF)
  | none => ([token_create .TOKEN_EOF [] 0 stF.line stF.column], stF)

/-- `lex_source`. -/
def lex_source (source : List Char) : List Token := (lex_source_full source).1

/-- Parser state (tinyllvm_parser.c `Parser`; the error message is
collapsed into the `Option` failure of each parsing function, matching
the `has_error` / NULL-return discipline of the C code). -/
structure PState where
  tokens : List Token
  current : Nat
  deriving Repr

def parser_current (p : PState) : Option Token := p.tokens.get? p.current

def parser_previous (p : PState) : Option Token :=
  if p.current = 0 then none else p.tokens.get? (p.current - 1)

def parser_is_at_end (p : PState) : Bool :=
  match parser_current p with
  | none => true
  | some t => t.kind = .TOKEN_EOF

def parser_check (p : PState) (kind : TokenKind) : Bool :=
  if parser_is_at_end p then false
  else
    match parser_current p with
    | some t => t.kind = kind
    | none => false

def parser_advance (p : PState) : PState :=
  if parser_is_at_end p then p else { p with current := p.current + 1 }

def parser_match (p : PState) (kind : TokenKind) : Bool × PState :=
  if parser_check p kind then (true, parser_advance p) else (false, p)

def parser_expect (p : PState) (kind : TokenKind) : Option (Token × PState) :=
  if parser_check p kind then
    match parser_current p with
    | some t => some (t, parser_advance p)
    | none => none
  else none

mutual

/-- `parse_primary`. -/
def parse_primary : Nat → PState → Option (ASTExpr × PState)
  | 0, _ => none
  | fuel + 1, p =>
    match parser_match p .TOKEN_INT_LITERAL with
    | (true, p1) =>
        match parser_previous p1 with
        | some tok => some (ast_expr_int_literal tok.value, p1)
        | none => none
    | (false, _) =>
    match parser_match p .TOKEN_TRUE with
    | (true, p1) => some (ast_expr_bool_literal true, p1)
    | (false, _) =>
    match parser_match p .TOKEN_FALSE with
    | (true, p1) => some (ast_expr_bool_literal false, p1)
    | (false, _) =>
    match parser_match p .TOKEN_IDENTIFIER with
    | (true, p1) =>
        match parser_previous p1 with
        | none => none
        | some nameTok =>
            match parser_match p1 .TOKEN_LPAREN with
            | (true, p2) =>
                if parser_check p2 .TOKEN_RPAREN then
                  match parser_expect p2 .TOKEN_RPAREN with
                  | some (_, p3) => some (ast_expr_call nameTok.lexeme [], p3)
                  | none => none
                else
                  match parse_call_args fuel p2 [] with
                  | none => none
                  | some (args, p3) =>
                      match parser_expect p3 .TOKEN_RPAREN with
                      | none => none
                      | some (_, p4) =>
                          some (ast_expr_call nameTok.lexeme args, p4)
            | (false, _) => some (ast_expr_var nameTok.lexeme, p1)
    | (false, _) =>
    match parser_match p .TOKEN_LPAREN with
    | (true, p1) =>
        match parse_expression fuel p1 with
        | none => none
        | some (e, p2) =>
            match parser_expect p2 .TOKEN_RPAREN with
            | none => none
            | some (_, p3) => some (e, p3)
    | (false, _) => none

/-- The argument do-while loop of the call case of `parse_primary`. -/
def parse_call_args : Nat → PState → List ASTExpr → Option (List ASTExpr × PState)
  | 0, _, _ => none
  | fuel + 1, p, acc =>
    match parse_expression fuel p with
    | none => none
    | some (arg, p1) =>
        let acc1 := acc ++ [arg]
        match parser_match p1 .TOKEN_COMMA with
        | (true, p2) => parse_call_args fuel p2 acc1
        | (false, p2) => some (acc1, p2)

/-- `parse_unary`. -/
def parse_unary : Nat → PState → Option (ASTExpr × PState)
  | 0, _ => none
  | fuel + 1, p =>
    match parser_match p .TOKEN_NOT with
    | (true, p1) =>
        match parse_unary fuel p1 with
        | none => none
        | some (operand, p2) => some (ast_expr_unary .EXPR_NOT operand, p2)
    | (false, _) => parse_primary fuel p

/-- `parse_factor`. -/
def parse_factor : Nat → PState → Option (ASTExpr × PState)
  | 0, _ => none
  | fuel + 1, p =>
    match parse_unary fuel p with
    | none => none
    | some (left, p1) => parse_factor_rest fuel left p1

/-- The left-associative operator loop of `parse_factor`. -/
def parse_factor_rest : Nat → ASTExpr → PState → Option (ASTExpr × PState)
  | 0, _, _ => none
  | fuel + 1, left, p =>
    match parser_current p with
    | none => some (left, p)
    | some t =>
      if t.kind = .TOKEN_STAR ∨ t.kind = .TOKEN_SLASH ∨ t.kind = .TOKEN_PERCENT then
        let p1 := parser_advance p
        let kind : ExprKind := match t.kind with
          | .TOKEN_STAR => .EXPR_MUL
          | .TOKEN_SLASH => .EXPR_DIV
          | .TOKEN_PERCENT => .EXPR_MOD
          | _ => .EXPR_MUL
        match parse_unary fuel p1 with
        | none => none
        | some (right, p2) =>
            parse_factor_rest fuel (ast_expr_binary kind left right) p2
      else some (left, p)

/-- `parse_term`. -/
def parse_term : Nat → PState → Option (ASTExpr × PState)
  | 0, _ => none
  | fuel + 1, p =>
    match parse_factor fuel p with
    | none => none
    | some (left, p1) => parse_term_rest fuel left p1

/-- The left-associative operator loop of `parse_term`. -/
def parse_term_rest : Nat → ASTExpr → PState → Option (ASTExpr × PState)
  | 0, _, _ => none
  | fuel + 1, left, p =>
    match parser_current p with
    | none => some (left, p)
    | some t =>
      if t.kind = .TOKEN_PLUS ∨ t.kind = .TOKEN_MINUS then
        let p1 := parser_advance p
        let kind : ExprKind :=
          if t.kind = .TOKEN_PLUS then .EXPR_ADD else .EXPR_SUB
        match parse_factor fuel p1 with
        | none => none
        | some (right, p2) =>
            parse_term_rest fuel (ast_expr_binary kind left right) p2
      else some (left, p)

/-- `parse_comparison`. -/
def parse_comparison : Nat → PState → Option (ASTExpr × PState)
  | 0, _ => none
  | fuel + 1, p =>
    match parse_term fuel p with
    | none => none
    | some (left, p1) => parse_comparison_rest fuel left p1

/-- The left-associative operator loop of `parse_comparison`. -/
def parse_comparison_rest : Nat → ASTExpr → PState → Option (ASTExpr × PState)
  | 0, _, _ => none
  | fuel + 1, left, p =>
    match parser_current p with
    | none => some (left, p)
    | some t =>
      if t.kind = .TOKEN_LT ∨ t.kind = .TOKEN_LE ∨ t.kind = .TOKEN_GT ∨
          t.kind = .TOKEN_GE then
        let p1 := parser_advance p
        let kind : ExprKind := match t.kind with
          | .TOKEN_LT => .EXPR_LT
          | .TOKEN_LE => .EXPR_LE
          | .TOKEN_GT => .EXPR_GT
          | .TOKEN_GE => .EXPR_GE
          | _ => .EXPR_LT
        match parse_term fuel p1 with
        | none => none
        | some (right, p2) =>
            parse_comparison_rest fuel (ast_expr_binary kind left right) p2
      else some (left, p)

/-- `parse_equality`. -/
def parse_equality : Nat → PState → Option (ASTExpr × PState)
  | 0, _ => none
  | fuel + 1, p =>
    match parse_comparison fuel p with
    | none => none
    | some (left, p1) => parse_equality_rest fuel left p1

/-- The left-associative operator loop of `parse_equality`. -/
def parse_equality_rest : Nat → ASTExpr → PState → Option (ASTExpr × PState)
  | 0, _, _ => none
  | fuel + 1, left, p =>
    match parser_current p with
    | none => some (left, p)
    | some t =>
      if t.kind = .TOKEN_EQ ∨ t.kind = .TOKEN_NE then
        let p1 := parser_advance p
        let kind : ExprKind :=
          if t.kind = .TOKEN_EQ then .EXPR_EQ else .EXPR_NE
        match parse_comparison fuel p1 with
        | none => none
        | some (right, p2) =>
            parse_equality_rest fuel (ast_expr_binary kind left right) p2
      else some (left, p)

/-- `parse_logical_and`. -/
def parse_logical_and : Nat → PState → Option (ASTExpr × PState)
  | 0, _ => none
  | fuel + 1, p =>
    match parse_equality fuel p with
    | none => none
    | some (left, p1) => parse_and_rest fuel left p1

/-- The operator loop of `parse_logical_and`. -/
def parse_and_rest : Nat → ASTExpr → PState → Option (ASTExpr × PState)
  | 0, _, _ => none
  | fuel + 1, left, p =>
    match parser_match p .TOKEN_AND with
    | (true, p1) =>
        match parse_equality fuel p1 with
        | none => none
        | some (right, p2) =>
            parse_and_rest fuel (ast_expr_binary .EXPR_AND left right) p2
    | (false, _) => some (left, p)

/-- `parse_logical_or`. -/
def parse_logical_or : Nat → PState → Option (ASTExpr × PState)
  | 0, _ => none
  | fuel + 1, p =>
    match parse_logical_and fuel p with
    | none => none
    | some (left, p1) => parse_or_rest fuel left p1

/-- The operator loop of `parse_logical_or`. -/
def parse_or_rest : Nat → ASTExpr → PState → Option (ASTExpr × PState)
  | 0, _, _ => none
  | fuel + 1, left, p =>
    match parser_match p .TOKEN_OR with
    | (true, p1) =>
        match parse_logical_and fuel p1 with
        | none => none
        | some (right, p2) =>
            parse_or_rest fuel (ast_expr_binary .EXPR_OR left right) p2
    | (false, _) => some (left, p)

/-- `parse_expression`. -/
def parse_expression : Nat → PState → Option (ASTExpr × PState)
  | 0, _ => none
  | fuel + 1, p => parse_logical_or fuel p

end

/-- `parse_type` (on error the C returns a dummy `int` with `has_error`
set, which every caller checks immediately; `none` models that). -/
def parse_type (p : PState) : Option (Ty × PState) :=
  match parser_match p .TOKEN_INT with
  | (true, p1) => some (type_int, p1)
  | (false, _) =>
    match parser_match p .TOKEN_BOOL with
    | (true, p1) => some (type_bool, p1)
    | (false, _) => none

/-- `parse_var_decl` (the `var` keyword is already consumed): the declared
type recorded on the built node is the provisional `type_int`. -/
def parse_var_decl (fuel : Nat) (p : PState) : Option (ASTStmt × PState) :=
  match parser_expect p .TOKEN_IDENTIFIER with
  | none => none
  | some (nameTok, p1) =>
    match parser_expect p1 .TOKEN_ASSIGN with
    | none => none
    | some (_, p2) =>
      match parse_expression fuel p2 with
      | none => none
      | some (init, p3) =>
        match parser_expect p3 .TOKEN_SEMICOLON with
        | none => none
        | some (_, p4) => some (ast_stmt_var_decl nameTok.lexeme type_int init, p4)

mutual

/-- `parse_statement`. -/
def parse_statement : Nat → PState → Option (ASTStmt × PState)
  | 0, _ => none
  | fuel + 1, p =>
    match parser_match p .TOKEN_VAR with
    | (true, p1) => parse_var_decl fuel p1
    | (false, _) =>
    match parser_match p .TOKEN_IF with
    | (true, p1) => parse_if_statement fuel p1
    | (false, _) =>
    match parser_match p .TOKEN_WHILE with
    | (true, p1) => parse_while_statement fuel p1
    | (false, _) =>
    match parser_match p .TOKEN_RETURN with
    | (true, p1) => parse_return_statement fuel p1
    | (false, _) =>
    if parser_check p .TOKEN_LBRACE then parse_block fuel p
    else
      let checkpoint := p.current
      if parser_check p .TOKEN_IDENTIFIER then
        let p1 := parser_advance p
        match parser_previous p1 with
        | none => none
        | some nameTok =>
            match parser_match p1 .TOKEN_ASSIGN with
            | (true, p2) =>
                match parse_expression fuel p2 with
                | none => none
                | some (e, p3) =>
                    match parser_expect p3 .TOKEN_SEMICOLON with
                    | none => none
                    | some (_, p4) => some (ast_stmt_assign nameTok.lexeme e, p4)
            | (false, p1b) =>
                parse_expr_statement fuel { p1b with current := checkpoint }
      else parse_expr_statement fuel p

/-- The expression-statement tail of `parse_statement`. -/
def parse_expr_statement : Nat → PState → Option (ASTStmt × PState)
  | 0, _ => none
  | fuel + 1, p =>
    match parse_expression fuel p with
    | none => none
    | some (e, p1) =>
        match parser_expect p1 .TOKEN_SEMICOLON with
        | none => none
        | some (_, p2) => some (ast_stmt_expr e, p2)

/-- `parse_if_statement` (the `if` keyword is already consumed). -/
def parse_if_statement : Nat → PState → Option (ASTStmt × PState)
  | 0, _ => none
  | fuel + 1, p =>
    match parser_expect p .TOKEN_LPAREN with
    | none => none
    | some (_, p1) =>
      match parse_expression fuel p1 with
      | none => none
      | some (condition, p2) =>
        match parser_expect p2 .TOKEN_RPAREN with
        | none => none
        | some (_, p3) =>
          match parse_block fuel p3 with
          | none => none
          | some (thenBlock, p4) =>
            match parser_match p4 .TOKEN_ELSE with
            | (true, p5) =>
                match parse_block fuel p5 with
                | none => none
                | some (elseBlock, p6) =>
                    some (ast_stmt_if condition thenBlock (some elseBlock), p6)
            | (false, p5) => some (ast_stmt_if condition thenBlock none, p5)

/-- `parse_while_statement` (the `while` keyword is already consumed). -/
def parse_while_statement : Nat → PState → Option (ASTStmt × PState)
  | 0, _ => none
  | fuel + 1, p =>
    match parser_expect p .TOKEN_LPAREN with
    | none => none
    | some (_, p1) =>
      match parse_expression fuel p1 with
      | none => none
      | some (condition, p2) =>
        match parser_expect p2 .TOKEN_RPAREN with
        | none => none
        | some (_, p3) =>
          match parse_block fuel p3 with
          | none => none
          | some (body, p4) => some (ast_stmt_while condition body, p4)

/-- `parse_return_statement` (the `return` keyword is already consumed). -/
def parse_return_statement : Nat → PState → Option (ASTStmt × PState)
  | 0, _ => none
  | fuel + 1, p =>
    if parser_check p .TOKEN_SEMICOLON then
      match parser_expect p .TOKEN_SEMICOLON with
      | none => none
      | some (_, p1) => some (ast_stmt_return none, p1)
    else
      match parse_expression fuel p with
      | none => none
      | some (e, p1) =>
          match parser_expect p1 .TOKEN_SEMICOLON with
          | none => none
          | some (_, p2) => some (ast_stmt_return (some e), p2)

/-- `parse_block`. -/
def parse_block : Nat → PState → Option (ASTStmt × PState)
  | 0, _ => none
  | fuel + 1, p =>
    match parser_expect p .TOKEN_LBRACE with
    | none => none
    | some (_, p1) =>
      match parse_block_stmts fuel p1 [] with
      | none => none
      | some (stmts, p2) =>
          match parser_expect p2 .TOKEN_RBRACE with
          | none => none
          | some (_, p3) => some (ast_stmt_block stmts, p3)

/-- The statement loop of `parse_block`. -/
def parse_block_stmts : Nat → PState → List ASTStmt → Option (List ASTStmt × PState)
  | 0, _, _ => none
  | fuel + 1, p, acc =>
    if !(parser_check p .TOKEN_RBRACE) && !(parser_is_at_end p) then
      match parse_statement fuel p with
      | none => none
      | some (s, p1) => parse_block_stmts fuel p1 (acc ++ [s])
    else some (acc, p)

end

/-- The parameter do-while loop of `parse_function`. -/
def parse_params : Nat → PState → List Param → Option (List Param × PState)
  | 0, _, _ => none
  | fuel + 1, p, acc =>
    match parser_expect p .TOKEN_IDENTIFIER with
    | none => none
    | some (nameTok, p1) =>
      match parser_expect p1 .TOKEN_COLON with
      | none => none
      | some (_, p2) =>
        match parse_type p2 with
        | none => none
        | some (ty, p3) =>
          let acc1 := acc ++ [⟨nameTok.lexeme, ty⟩]
          match parser_match p3 .TOKEN_COMMA with
          | (true, p4) => parse_params fuel p4 acc1
          | (false, p4) => some (acc1, p4)

/-- `parse_function`. -/
def parse_function (fuel : Nat) (p : PState) : Option (ASTFunc × PState) :=
  match parser_expect p .TOKEN_FUNC with
  | none => none
  | some (_, p1) =>
    match parser_expect p1 .TOKEN_IDENTIFIER with
    | none => none
    | some (nameTok, p2) =>
      match parser_expect p2 .TOKEN_LPAREN with
      | none => none
      | some (_, p3) =>
        let paramsStep : Option (List Param × PState) :=
          if parser_check p3 .TOKEN_RPAREN then some ([], p3)
          else parse_params fuel p3 []
        match paramsStep with
        | none => none
        | some (params, p4) =>
          match parser_expect p4 .TOKEN_RPAREN with
          | none => none
          | some (_, p5) =>
            match parser_expect p5 .TOKEN_COLON with
            | none => none
            | some (_, p6) =>
              match parse_type p6 with
              | none => none
              | some (returnType, p7) =>
                match parse_block fuel p7 with
                | none => none
                | some (body, p8) =>
                    some (ast_func_create nameTok.lexeme params returnType body, p8)

/-- The function loop of `parse_program`. -/
def parse_program_loop : Nat → PState → List ASTFunc → Option (List ASTFunc × PState)
  | 0, _, _ => none
  | fuel + 1, p, acc =>
    if !(parser_is_at_end p) then
      match parse_function fuel p with
      | none => none
      | some (f, p1) => parse_program_loop fuel p1 (acc ++ [f])
    else some (acc, p)

/-- `parse_program`. -/
def parse_program (fuel : Nat) (p : PState) : Option (ASTProgram × PState) :=
  match parse_program_loop fuel p [] with
  | none => none
  | some (funcs, p1) =>
    if funcs.isEmpty then none
    else some (ast_program_create funcs, p1)

/-- Fuel that the recursive-descent cannot exhaust: each descent through
the ten grammar levels without consuming a token is followed by a token
consumption, so depth is linearly bounded by the token count. -/
def parserFuel (tokens : List Token) : Nat := 16 * tokens.length + 64

/-- `parse_tokens`. -/
def parse_tokens (tokens : List Token) : Option ASTProgram :=
  if tokens.isEmpty then none
  else
    match parse_program (parserFuel tokens) ⟨tokens, 0⟩ with
    | none => none
    | some (prog, _) => some prog

/-- `Symbol` of tinyllvm_typechecker.c (`param_count` is the length of
`paramTypes`; the two fields are always set consistently). -/
structure Symbol where
  name : String
  ty : Ty
  isFunction : Bool
  paramTypes : List Ty
  deriving Repr

/-- One `SymbolTable` (its `symbols` array, in insertion order). -/
abbrev Scope := List Symbol

/-- The chain of parent-linked symbol tables, innermost first. -/
abbrev Scopes := List Scope

/-- `symbol_table_lookup`: first match in the innermost table that has
one. -/
def symbol_table_lookup : Scopes → String → Option Symbol
  | [], _ => none
  | s :: parents, name =>
      match s.find? (fun sym => sym.name = name) with
      | some sym => some sym
      | none => symbol_table_lookup parents name

/-- `symbol_table_add`: fails on a duplicate in the scope itself. -/
def symbol_table_add (scope : Scope) (sym : Symbol) : Option Scope :=
  if scope.any (fun s => s.name = sym.name) then none
  else some (scope ++ [sym])

/-- `symbol_table_add` with the result discarded, as the parameter
registration loop of `type_check_program` does. -/
def symbol_table_add_ignore (scope : Scope) (sym : Symbol) : Scope :=
  match symbol_table_add scope sym with
  | some s => s
  | none => scope

/-- The per-operator typing of a binary node once both operands have been
checked (the grouped `case` labels of the C `switch`). -/
def binary_check_result (kind : ExprKind) (l r : ASTExpr) : Option ASTExpr :=
  match kind with
  | .EXPR_ADD | .EXPR_SUB | .EXPR_MUL | .EXPR_DIV | .EXPR_MOD =>
      if l.ty ≠ .int then none
      else if r.ty ≠ .int then none
      else some (.binary type_int kind l r)
  | .EXPR_LT | .EXPR_LE | .EXPR_GT | .EXPR_GE =>
      if l.ty ≠ .int then none
      else if r.ty ≠ .int then none
      else some (.binary type_bool kind l r)
  | .EXPR_EQ | .EXPR_NE =>
      if type_equals l.ty r.ty then some (.binary type_bool kind l r)
      else none
  | .EXPR_AND | .EXPR_OR =>
      if l.ty ≠ .bool then none
      else if r.ty ≠ .bool then none
      else some (.binary type_bool kind l r)
  | .EXPR_NOT => none

mutual

/-- `check_expression`: returns the annotated node (`expr->type` written
in place in the C).  The catch-all arms mirror union shapes that no
constructor of tinyllvm_ast.c ever builds. -/
def check_expression (scopes : Scopes) : ASTExpr → Option ASTExpr
  | .intLit _ v => some (.intLit type_int v)
  | .boolLit _ v => some (.boolLit type_bool v)
  | .var _ name =>
      match symbol_table_lookup scopes name with
      | none => none
      | some sym =>
          if sym.isFunction then none
          else some (.var sym.ty name)
  | .binary _ kind left right =>
      match check_expression scopes left with
      | none => none
      | some l =>
          match check_expression scopes right with
          | none => none
          | some r => binary_check_result kind l r
  | .unary _ .EXPR_NOT operand =>
      match check_expression scopes operand with
      | none => none
      | some o =>
          if o.ty ≠ .bool then none
          else some (.unary type_bool .EXPR_NOT o)
  | .unary _ _ _ => none
  | .call _ name args =>
      match symbol_table_lookup scopes name with
      | none => none
      | some sym =>
          if !sym.isFunction then none
          else if args.length ≠ sym.paramTypes.length then none
          else
            match check_args scopes args sym.paramTypes with
            | none => none
            | some args1 => some (.call sym.ty name args1)

/-- The argument loop of the `EXPR_CALL` case: check each argument and
compare its type to the declared parameter type. -/
def check_args (scopes : Scopes) : List ASTExpr → List Ty → Option (List ASTExpr)
  | [], _ => some []
  | _ :: _, [] => none
  | a :: rest, pty :: ptys1 =>
      match check_expression scopes a with
      | none => none
      | some a1 =>
          if type_equals a1.ty pty then
            match check_args scopes rest ptys1 with
            | none => none
            | some rest1 => some (a1 :: rest1)
          else none

end

mutual

/-- `check_statement`: returns the annotated statement and the updated
scope chain (a `var` declaration grows the current scope; a block pushes
a child scope that is torn down afterwards). -/
def check_statement (retTy : Ty) : Scopes → ASTStmt → Option (ASTStmt × Scopes)
  | [], .varDecl _ _ _ => none
  | cur :: parents, .varDecl name _ initExpr =>
      match check_expression (cur :: parents) initExpr with
      | none => none
      | some init1 =>
          match symbol_table_add cur ⟨name, init1.ty, false, []⟩ with
          | none => none
          | some cur1 => some (.varDecl name init1.ty init1, cur1 :: parents)
  | scopes, .assign name e =>
      match symbol_table_lookup scopes name with
      | none => none
      | some sym =>
          if sym.isFunction then none
          else
            match check_expression scopes e with
            | none => none
            | some e1 =>
                if type_equals sym.ty e1.ty then some (.assign name e1, scopes)
                else none
  | scopes, .ifS cond thenB none =>
      match check_expression scopes cond with
      | none => none
      | some cond1 =>
          if cond1.ty ≠ .bool then none
          else
            match check_statement retTy scopes thenB with
            | none => none
            | some (then1, scopes1) => some (.ifS cond1 then1 none, scopes1)
  | scopes, .ifS cond thenB (some e) =>
      match check_expression scopes cond with
      | none => none
      | some cond1 =>
          if cond1.ty ≠ .bool then none
          else
            match check_statement retTy scopes thenB with
            | none => none
            | some (then1, scopes1) =>
                match check_statement retTy scopes1 e with
                | none => none
                | some (else1, scopes2) =>
                    some (.ifS cond1 then1 (some else1), scopes2)
  | scopes, .whileS cond body =>
      match check_expression scopes cond with
      | none => none
      | some cond1 =>
          if cond1.ty ≠ .bool then none
          else
            match check_statement retTy scopes body with
            | none => none
            | some (body1, scopes1) => some (.whileS cond1 body1, scopes1)
  | scopes, .returnS none =>
      if retTy ≠ .void then none else some (.returnS none, scopes)
  | scopes, .returnS (some e) =>
      match check_expression scopes e with
      | none => none
      | some e1 =>
          if type_equals e1.ty retTy then some (.returnS (some e1), scopes)
          else none
  | scopes, .exprS e =>
      match check_expression scopes e with
      | none => none
      | some e1 => some (.exprS e1, scopes)
  | scopes, .blockS stmts =>
      match check_stmt_list retTy ([] :: scopes) stmts with
      | none => none
      | some (stmts1, _) => some (.blockS stmts1, scopes)

/-- The statement loop of the `STMT_BLOCK` case. -/
def check_stmt_list (retTy : Ty) : Scopes → List ASTStmt →
    Option (List ASTStmt × Scopes)
  | scopes, [] => some ([], scopes)
  | scopes, s :: rest =>
      match check_statement retTy scopes s with
      | none => none
      | some (s1, scopes1) =>
          match check_stmt_list retTy scopes1 rest with
          | none => none
          | some (rest1, scopes2) => some (s1 :: rest1, scopes2)

end

/-- The signature pass of `type_check_program`. -/
def typeCheckPass1 : Scope → List ASTFunc → Option Scope
  | g, [] => some g
  | g, f :: rest =>
      match symbol_table_add g ⟨f.name, f.returnType, true, f.params.map Param.ty⟩ with
      | none => none
      | some g1 => typeCheckPass1 g1 rest

/-- The parameter registration of the body pass: `symbol_table_add`'s
return value is discarded, so a duplicate parameter is silently kept
out of the scope instead of raising an error. -/
def buildFuncScope (params : List Param) : Scope :=
  params.foldl
    (fun sc p => symbol_table_add_ignore sc ⟨p.name, p.ty, false, []⟩) []

/-- The body pass of `type_check_program`. -/
def typeCheckPass2 (globals : Scope) : List ASTFunc → Option (List ASTFunc)
  | [] => some []
  | f :: rest =>
      let funcScope := buildFuncScope f.params
      match check_statement f.returnType [funcScope, globals] f.body with
      | none => none
      | some (body1, _) =>
          match typeCheckPass2 globals rest with
          | none => none
          | some rest1 => some ({ f with body := body1 } :: rest1)

/-- `type_check_program`: registers the built-in `print(int) → void`,
runs the signature pass, then the body pass; returns the annotated
program (the C annotates in place and returns `true`). -/
def type_check_program (program : ASTProgram) : Option ASTProgram :=
  let globals0 : Scope := [⟨"print", type_void, true, [type_int]⟩]
  match typeCheckPass1 globals0 program.functions with
  | none => none
  | some globals =>
      match typeCheckPass2 globals program.functions with
      | none => none
      | some funcs1 => some ⟨funcs1⟩

/-- `CodeGenTarget` of tinyllvm_compiler.h. -/
inductive CodeGenTarget where
  | TARGET_TINYLLVM
  | TARGET_C
  | TARGET_RUST
  | TARGET_GO
  | TARGET_RUBY
  | TARGET_HASKELL
  | TARGET_ASM_X86_64
  deriving DecidableEq, Repr

/-- `CompilerConfig`, restricted to the fields the code generators and the
codegen event read (`target`, `emit_comments`). -/
structure CompilerConfig where
  target : CodeGenTarget
  emitComments : Bool
  deriving DecidableEq, Repr

/-- C generator state (`CodeGen` of tinyllvm_codegen_c.c; the buffer
always grows successfully in the model). -/
structure CodeGen where
  output : String
  indentLevel : Nat
  deriving Repr

def codegen_append (gen : CodeGen) (s : String) : CodeGen :=
  { gen with output := gen.output ++ s }

def codegen_indent (gen : CodeGen) : CodeGen :=
  codegen_append gen (String.join (List.replicate gen.indentLevel "    "))

mutual

/-- `generate_expression` of the C target.  A `binary` node with kind
`EXPR_NOT` follows the C dispatch on `expr->kind` and reads the operand
from the union slot shared with `binary.left`; no constructor builds such
a node.  A `unary` node with a binary kind would read garbage from the
union, which no run can produce; it is mapped to the unchanged state. -/
def generate_expression : CodeGen → ASTExpr → CodeGen
  | gen, .intLit _ v => codegen_append gen (toString v)
  | gen, .boolLit _ v => codegen_append gen (if v then "1" else "0")
  | gen, .var _ name => codegen_append gen name
  | gen, .binary _ kind l r =>
      match kind with
      | .EXPR_NOT =>
          let gen := codegen_append gen "!("
          let gen := generate_expression gen l
          codegen_append gen ")"
      | _ =>
          let opStr := match kind with
            | .EXPR_ADD => " + "
            | .EXPR_SUB => " - "
            | .EXPR_MUL => " * "
            | .EXPR_DIV => " / "
            | .EXPR_MOD => " % "
            | .EXPR_EQ => " == "
            | .EXPR_NE => " != "
            | .EXPR_LT => " < "
            | .EXPR_LE => " <= "
            | .EXPR_GT => " > "
            | .EXPR_GE => " >= "
            | .EXPR_AND => " && "
            | .EXPR_OR => " || "
            | .EXPR_NOT => ""
          let gen := codegen_append gen "("
          let gen := generate_expression gen l
          let gen := codegen_append gen opStr
          let gen := generate_expression gen r
          codegen_append gen ")"
  | gen, .unary _ kind operand =>
      match kind with
      | .EXPR_NOT =>
          let gen := codegen_append gen "!("
          let gen := generate_expression gen operand
          codegen_append gen ")"
      | _ => gen
  | gen, .call _ name args =>
      if name = "print" then
        let gen := codegen_append gen "printf(\"%d\\n\", "
        let gen := match args with
          | [] => gen
          | a :: _ => generate_expression gen a
        codegen_append gen ")"
      else
        let gen := codegen_append gen name
        let gen := codegen_append gen "("
        let gen := generate_expr_list gen args true
        codegen_append gen ")"

/-- The argument loop of the call case of `generate_expression`. -/
def generate_expr_list : CodeGen → List ASTExpr → Bool → CodeGen
  | gen, [], _ => gen
  | gen, a :: rest, first =>
      let gen := if first then gen else codegen_append gen ", "
      let gen := generate_expression gen a
      generate_expr_list gen rest false

end

mutual

/-- `generate_statement` of the C target. -/
def generate_statement : CodeGen → ASTStmt → CodeGen
  | gen, .varDecl name ty init =>
      let gen := codegen_indent gen
      let gen := codegen_append gen (type_to_string ty)
      let gen := codegen_append gen " "
      let gen := codegen_append gen name
      let gen := codegen_append gen " = "
      let gen := generate_expression gen init
      codegen_append gen ";\n"
  | gen, .assign name e =>
      let gen := codegen_indent gen
      let gen := codegen_append gen name
      let gen := codegen_append gen " = "
      let gen := generate_expression gen e
      codegen_append gen ";\n"
  | gen, .ifS cond thenB elseB =>
      let gen := codegen_indent gen
      let gen := codegen_append gen "if ("
      let gen := generate_expression gen cond
      let gen := codegen_append gen ") "
      let gen := generate_statement gen thenB
      match elseB with
      | none => gen
      | some e =>
          let gen := codegen_indent gen
          let gen := codegen_append gen "else "
          generate_statement gen e
  | gen, .whileS cond body =>
      let gen := codegen_indent gen
      let gen := codegen_append gen "while ("
      let gen := generate_expression gen cond
      let gen := codegen_append gen ") "
      generate_statement gen body
  | gen, .returnS e =>
      let gen := codegen_indent gen
      let gen := codegen_append gen "return"
      let gen := match e with
        | none => gen
        | some ex =>
            let gen := codegen_append gen " "
            generate_expression gen ex
      codegen_append gen ";\n"
  | gen, .exprS e =>
      let gen := codegen_indent gen
      let gen := generate_expression gen e
      codegen_append gen ";\n"
  | gen, .blockS stmts =>
      let gen := codegen_append gen "\x7b\n"
      let gen := { gen with indentLevel := gen.indentLevel + 1 }
      let gen := generate_stmt_list gen stmts
      let gen := { gen with indentLevel := gen.indentLevel - 1 }
      let gen := codegen_indent gen
      codegen_append gen "\x7d\n"

/-- The statement loop of the block case of `generate_statement`. -/
def generate_stmt_list : CodeGen → List ASTStmt → CodeGen
  | gen, [] => gen
  | gen, s :: rest => generate_stmt_list (generate_statement gen s) rest

end

/-- `generate_function` of the C target. -/
def generate_function (gen : CodeGen) (func : ASTFunc) : CodeGen :=
  let gen := codegen_append gen (type_to_string func.returnType)
  let gen := codegen_append gen " "
  let gen := codegen_append gen func.name
  let gen := codegen_append gen "("
  let gen :=
    if func.params.isEmpty then codegen_append gen "void"
    else
      func.params.foldl
        (fun (acc : CodeGen × Bool) p =>
          let gen := if acc.2 then acc.1 else codegen_append acc.1 ", "
          let gen := codegen_append gen (type_to_string p.ty)
          let gen := codegen_append gen " "
          (codegen_append gen p.name, false))
        (gen, true) |>.1
  let gen := codegen_append gen ") "
  let gen := generate_statement gen func.body
  codegen_append gen "\n"

/-- One forward declaration of `generate_program_c`. -/
def generate_forward_decl (gen : CodeGen) (func : ASTFunc) : CodeGen :=
  let gen := codegen_append gen (type_to_string func.returnType)
  let gen := codegen_append gen " "
  let gen := codegen_append gen func.name
  let gen := codegen_append gen "("
  let gen :=
    if func.params.isEmpty then codegen_append gen "void"
    else
      func.params.foldl
        (fun (acc : CodeGen × Bool) p =>
          let gen := if acc.2 then acc.1 else codegen_append acc.1 ", "
          (codegen_append gen (type_to_string p.ty), false))
        (gen, true) |>.1
  codegen_append gen ");\n"

/-- `generate_program_c`. -/
def generate_program_c (gen : CodeGen) (config : Option CompilerConfig)
    (program : ASTProgram) : CodeGen :=
  let gen :=
    match config with
    | some c =>
        if c.emitComments then
          codegen_append gen "/* Generated by TinyLLVM Compiler */\n\n"
        else gen
    | none => gen
  let gen := codegen_append gen "#include <stdio.h>\n"
  let gen := codegen_append gen "#include <stdbool.h>\n\n"
  let gen := program.functions.foldl generate_forward_decl gen
  let gen := codegen_append gen "\n"
  program.functions.foldl generate_function gen

/-- `generate_c_code`. -/
def generate_c_code (program : ASTProgram) (config : Option CompilerConfig) :
    String :=
  (generate_program_c ⟨"", 0⟩ config program).output

/-- IR generator state (`IRCodeGen` of tinyllvm_codegen_ir.c). -/
structure IRCodeGen where
  output : String
  indentLevel : Nat
  tempCounter : Nat
  labelCounter : Nat
  deriving Repr

def ir_append (gen : IRCodeGen) (s : String) : IRCodeGen :=
  { gen with output := gen.output ++ s }

def ir_indent (gen : IRCodeGen) : IRCodeGen :=
  ir_append gen (String.join (List.replicate gen.indentLevel "  "))

def ir_get_next_temp (gen : IRCodeGen) : Nat × IRCodeGen :=
  (gen.tempCounter, { gen with tempCounter := gen.tempCounter + 1 })

def ir_get_next_label (gen : IRCodeGen) : Nat × IRCodeGen :=
  (gen.labelCounter, { gen with labelCounter := gen.labelCounter + 1 })

/-- Render `%t<n>`. -/
def irTemp (n : Nat) : String := "%t" ++ toString n

/-- The instruction mnemonic of a binary `ExprKind` in the IR. -/
def irBinInstr (kind : ExprKind) : String :=
  match kind with
  | .EXPR_ADD => "add i32 "
  | .EXPR_SUB => "sub i32 "
  | .EXPR_MUL => "mul i32 "
  | .EXPR_DIV => "div i32 "
  | .EXPR_MOD => "mod i32 "
  | .EXPR_EQ => "icmp eq i32 "
  | .EXPR_NE => "icmp ne i32 "
  | .EXPR_LT => "icmp lt i32 "
  | .EXPR_LE => "icmp le i32 "
  | .EXPR_GT => "icmp gt i32 "
  | .EXPR_GE => "icmp ge i32 "
  | .EXPR_AND => "and i1 "
  | .EXPR_OR => "or i1 "
  | .EXPR_NOT => ""

/-- The argument emission loop of the call case. -/
def ir_append_arg_temps : IRCodeGen → List Nat → Bool → IRCodeGen
  | gen, [], _ => gen
  | gen, t :: rest, first =>
      let gen := if first then gen else ir_append gen ", "
      ir_append_arg_temps (ir_append gen ("i32 " ++ irTemp t)) rest false

mutual

/-- `ir_generate_expression`: the result temporary is issued before the
operands are lowered, as in the C.  Union-shape remarks as for the C
generator. -/
def ir_generate_expression : IRCodeGen → ASTExpr → Nat × IRCodeGen
  | gen, .intLit _ v =>
      let (resultTemp, gen) := ir_get_next_temp gen
      let gen := ir_indent gen
      let gen := ir_append gen
        (irTemp resultTemp ++ " = const i32 " ++ toString v ++ "\n")
      (resultTemp, gen)
  | gen, .boolLit _ v =>
      let (resultTemp, gen) := ir_get_next_temp gen
      let gen := ir_indent gen
      let gen := ir_append gen
        (irTemp resultTemp ++ " = const i1 " ++ (if v then "1" else "0") ++ "\n")
      (resultTemp, gen)
  | gen, .var _ name =>
      let (resultTemp, gen) := ir_get_next_temp gen
      let gen := ir_indent gen
      let gen := ir_append gen (irTemp resultTemp ++ " = load %" ++ name ++ "\n")
      (resultTemp, gen)
  | gen, .binary _ kind l r =>
      let (resultTemp, gen) := ir_get_next_temp gen
      match kind with
      | .EXPR_NOT =>
          let (operandTemp, gen) := ir_generate_expression gen l
          let gen := ir_indent gen
          let gen := ir_append gen
            (irTemp resultTemp ++ " = xor i1 " ++ irTemp operandTemp ++ ", 1\n")
          (resultTemp, gen)
      | _ =>
          let (leftTemp, gen) := ir_generate_expression gen l
          let (rightTemp, gen) := ir_generate_expression gen r
          let gen := ir_indent gen
          let gen := ir_append gen
            (irTemp resultTemp ++ " = " ++ irBinInstr kind ++
              irTemp leftTemp ++ ", " ++ irTemp rightTemp ++ "\n")
          (resultTemp, gen)
  | gen, .unary _ kind operand =>
      let (resultTemp, gen) := ir_get_next_temp gen
      match kind with
      | .EXPR_NOT =>
          let (operandTemp, gen) := ir_generate_expression gen operand
          let gen := ir_indent gen
          let gen := ir_append gen
            (irTemp resultTemp ++ " = xor i1 " ++ irTemp operandTemp ++ ", 1\n")
          (resultTemp, gen)
      | _ => (resultTemp, gen)
  | gen, .call _ name args =>
      let (resultTemp, gen) := ir_get_next_temp gen
      if name = "print" then
        match args with
        | [] => (resultTemp, gen)
        | a :: _ =>
            let (argTemp, gen) := ir_generate_expression gen a
            let gen := ir_indent gen
            let gen := ir_append gen
              ("call void @print(i32 " ++ irTemp argTemp ++ ")\n")
            (resultTemp, gen)
      else
        let (argTemps, gen) := ir_generate_args gen args 16 []
        let gen := ir_indent gen
        let gen := ir_append gen (irTemp resultTemp ++ " = call i32 @" ++ name ++ "(")
        let gen := ir_append_arg_temps gen argTemps true
        let gen := ir_append gen ")\n"
        (resultTemp, gen)

/-- The argument lowering loop of the call case (at most 16 arguments,
as in the C). -/
def ir_generate_args : IRCodeGen → List ASTExpr → Nat → List Nat →
    List Nat × IRCodeGen
  | gen, [], _, acc => (acc, gen)
  | gen, _ :: _, 0, acc => (acc, gen)
  | gen, a :: rest, limit + 1, acc =>
      let (t, gen) := ir_generate_expression gen a
      ir_generate_args gen rest limit (acc ++ [t])

end

mutual

/-- `ir_generate_statement`. -/
def ir_generate_statement : IRCodeGen → ASTStmt → IRCodeGen
  | gen, .varDecl name _ init =>
      let gen := ir_indent gen
      let gen := ir_append gen ("%" ++ name ++ " = alloca i32\n")
      let (initTemp, gen) := ir_generate_expression gen init
      let gen := ir_indent gen
      ir_append gen ("store i32 " ++ irTemp initTemp ++ ", %" ++ name ++ "\n")
  | gen, .assign name e =>
      let (exprTemp, gen) := ir_generate_expression gen e
      let gen := ir_indent gen
      ir_append gen ("store i32 " ++ irTemp exprTemp ++ ", %" ++ name ++ "\n")
  | gen, .ifS cond thenB elseB =>
      let (condTemp, gen) := ir_generate_expression gen cond
      let (thenLabel, gen) := ir_get_next_label gen
      let (elseLabel, gen) := ir_get_next_label gen
      let (endLabel, gen) := ir_get_next_label gen
      let gen := ir_indent gen
      let gen :=
        match elseB with
        | some _ =>
            ir_append gen ("br i1 " ++ irTemp condTemp ++ ", label %L" ++
              toString thenLabel ++ ", label %L" ++ toString elseLabel ++ "\n")
        | none =>
            ir_append gen ("br i1 " ++ irTemp condTemp ++ ", label %L" ++
              toString thenLabel ++ ", label %L" ++ toString endLabel ++ "\n")
      let gen := ir_append gen "\n"
      let gen := ir_append gen ("L" ++ toString thenLabel ++ ":\n")
      let gen := { gen with indentLevel := gen.indentLevel + 1 }
      let gen := ir_generate_statement gen thenB
      let gen := { gen with indentLevel := gen.indentLevel - 1 }
      let gen := ir_indent gen
      let gen := ir_append gen ("br label %L" ++ toString endLabel ++ "\n")
      let gen :=
        match elseB with
        | none => gen
        | some e =>
            let gen := ir_append gen "\n"
            let gen := ir_append gen ("L" ++ toString elseLabel ++ ":\n")
            let gen := { gen with indentLevel := gen.indentLevel + 1 }
            let gen := ir_generate_statement gen e
            let gen := { gen with indentLevel := gen.indentLevel - 1 }
            let gen := ir_indent gen
            ir_append gen ("br label %L" ++ toString endLabel ++ "\n")
      let gen := ir_append gen "\n"
      ir_append gen ("L" ++ toString endLabel ++ ":\n")
  | gen, .whileS cond body =>
      let (condLabel, gen) := ir_get_next_label gen
      let (bodyLabel, gen) := ir_get_next_label gen
      let (endLabel, gen) := ir_get_next_label gen
      let gen := ir_indent gen
      let gen := ir_append gen ("br label %L" ++ toString condLabel ++ "\n")
      let gen := ir_append gen "\n"
      let gen := ir_append gen ("L" ++ toString condLabel ++ ":\n")
      let gen := { gen with indentLevel := gen.indentLevel + 1 }
      let (condTemp, gen) := ir_generate_expression gen cond
      let gen := ir_indent gen
      let gen := ir_append gen ("br i1 " ++ irTemp condTemp ++ ", label %L" ++
        toString bodyLabel ++ ", label %L" ++ toString endLabel ++ "\n")
      let gen := { gen with indentLevel := gen.indentLevel - 1 }
      let gen := ir_append gen "\n"
      let gen := ir_append gen ("L" ++ toString bodyLabel ++ ":\n")
      let gen := { gen with indentLevel := gen.indentLevel + 1 }
      let gen := ir_generate_statement gen body
      let gen := ir_indent gen
      let gen := ir_append gen ("br label %L" ++ toString condLabel ++ "\n")
      let gen := { gen with indentLevel := gen.indentLevel - 1 }
      let gen := ir_append gen "\n"
      ir_append gen ("L" ++ toString endLabel ++ ":\n")
  | gen, .returnS (some e) =>
      let (exprTemp, gen) := ir_generate_expression gen e
      let gen := ir_indent gen
      ir_append gen ("ret i32 " ++ irTemp exprTemp ++ "\n")
  | gen, .returnS none =>
      let gen := ir_indent gen
      ir_append gen "ret void\n"
  | gen, .exprS e =>
      (ir_generate_expression gen e).2
  | gen, .blockS stmts => ir_generate_stmt_list gen stmts

/-- The statement loop of the block case. -/
def ir_generate_stmt_list : IRCodeGen → List ASTStmt → IRCodeGen
  | gen, [] => gen
  | gen, s :: rest => ir_generate_stmt_list (ir_generate_statement gen s) rest

end

/-- The IR type name of a return type. -/
def irRetTy (t : Ty) : String :=
  match t with
  | .int => "i32"
  | .bool => "i1"
  | .void => "void"

/-- The IR type name of a parameter type (`void` falls back to `i32`). -/
def irParamTy (t : Ty) : String :=
  match t with
  | .int => "i32"
  | .bool => "i1"
  | .void => "i32"

/-- `ir_generate_function`. -/
def ir_generate_function (gen : IRCodeGen) (func : ASTFunc) : IRCodeGen :=
  let gen := ir_append gen
    ("define " ++ irRetTy func.returnType ++ " @" ++ func.name ++ "(")
  let gen :=
    func.params.foldl
      (fun (acc : IRCodeGen × Bool) p =>
        let gen := if acc.2 then acc.1 else ir_append acc.1 ", "
        (ir_append gen (irParamTy p.ty ++ " %" ++ p.name ++ ".param"), false))
      (gen, true) |>.1
  let gen := ir_append gen ") \x7b\n"
  let gen := ir_append gen "entry:\n"
  let gen := { gen with indentLevel := gen.indentLevel + 1 }
  let gen :=
    func.params.foldl
      (fun gen p =>
        let gen := ir_indent gen
        let gen := ir_append gen ("%" ++ p.name ++ " = alloca i32\n")
        let gen := ir_indent gen
        ir_append gen ("store i32 %" ++ p.name ++ ".param, %" ++ p.name ++ "\n"))
      gen
  let gen := ir_generate_statement gen func.body
  let gen := { gen with indentLevel := gen.indentLevel - 1 }
  ir_append gen "\x7d\n\n"

/-- `ir_generate_program`. -/
def ir_generate_program (gen : IRCodeGen) (config : Option CompilerConfig)
    (program : ASTProgram) : IRCodeGen :=
  let gen :=
    match config with
    | some c =>
        if c.emitComments then
          let gen := ir_append gen "; Generated by TinyLLVM Compiler\n"
          ir_append gen "; Target: TinyLLVM IR (human-readable)\n\n"
        else gen
    | none => gen
  let gen := ir_append gen "declare void @print(i32)\n\n"
  program.functions.foldl ir_generate_function gen

/-- `generate_ir_code`. -/
def generate_ir_code (program : ASTProgram) (config : Option CompilerConfig) :
    String :=
  (ir_generate_program ⟨"", 0, 0, 0⟩ config program).output

/-- The target dispatch of `compiler_codegen_event`: a missing config,
`TARGET_C` **and** `TARGET_TINYLLVM` all run `generate_c_code`; every
other target fails with an unsupported-target error.  `generate_ir_code`
is not reachable from the event. -/
def compiler_codegen_output (config : Option CompilerConfig)
    (program : ASTProgram) : Option String :=
  match config with
  | none => some (generate_c_code program none)
  | some c =>
      if c.target = .TARGET_C ∨ c.target = .TARGET_TINYLLVM then
        some (generate_c_code program config)
      else none

/-- The lexer event fails when any `TOKEN_ERROR` is present. -/
def hasErrorToken (toks : List Token) : Bool :=
  toks.any (fun t => t.kind = .TOKEN_ERROR)

/-- The chain of the four compiler events on the context data flow
`source_code → tokens → ast → (typed ast) → output_code`: each event
reads its key and installs the next, and the codegen event receives the
config as its user data. -/
def compile_pipeline (source : List Char) (config : Option CompilerConfig) :
    Option String :=
  let toks := lex_source source
  if hasErrorToken toks then none
  else
    match parse_tokens toks with
    | none => none
    | some prog =>
        match type_check_program prog with
        | none => none
        | some prog1 => compiler_codegen_output config prog1

/-- Whether `pre` is a prefix of `s`. -/
def strStartsWith (s pre : String) : Bool := pre.data.isPrefixOf s.data

def listContains (sub : List Char) : List Char → Bool
  | [] => sub.isPrefixOf []
  | c :: rest => sub.isPrefixOf (c :: rest) || listContains sub rest

/-- Whether `sub` occurs in `s`. -/
def strContains (s sub : String) : Bool := listContains sub.data s.data

/-- The factorial source of end-to-end scenario 1 (and of
tests/test_ir_generation.c). -/
def factorialSrc : List Char :=
  ("func factorial(n: int) : int \x7b\n    var result = 1;\n    while (n > 1) \x7b\n        result = result * n;\n        n = n - 1;\n    \x7d\n    return result;\n\x7d\n\nfunc main() : int \x7b\n    var x = 5;\n    var fact = factorial(x);\n    print(fact);\n    return 0;\n\x7d\n").data

/-- A source with a duplicated parameter name:
`func f(a: int, a: int) : int ...`. -/
def dupSrc : List Char :=
  ("func f(a: int, a: int) : int \x7b return 0; \x7d\nfunc main() : int \x7b return 0; \x7d\n").data

/-- The AST the parser produces on `dupSrc` (both parameters named
`a`). -/
def dupProgLit : ASTProgram :=
  ⟨[⟨"f", [⟨"a", .int⟩, ⟨"a", .int⟩], .int,
     .blockS [.returnS (some (.intLit .int 0))]⟩,
    ⟨"main", [], .int,
     .blockS [.returnS (some (.intLit .int 0))]⟩]⟩

/-- The AST the parser produces on the factorial source. -/
def factProgLit : ASTProgram :=
  ⟨[⟨"factorial", [⟨"n", .int⟩], .int,
     .blockS [
       .varDecl "result" .int (.intLit .int 1),
       .whileS (.binary .bool .EXPR_GT (.var .int "n") (.intLit .int 1))
         (.blockS [
           .assign "result"
             (.binary .int .EXPR_MUL (.var .int "result") (.var .int "n")),
           .assign "n"
             (.binary .int .EXPR_SUB (.var .int "n") (.intLit .int 1))]),
       .returnS (some (.var .int "result"))]⟩,
    ⟨"main", [], .int,
     .blockS [
       .varDecl "x" .int (.intLit .int 5),
       .varDecl "fact" .int (.call .int "factorial" [.var .int "x"]),
       .exprS (.call .int "print" [.var .int "fact"]),
       .returnS (some (.intLit .int 0))]⟩]⟩

/-- The typed AST the checker produces on it: identical except that the
`print` call node is annotated `void`. -/
def factTypedLit : ASTProgram :=
  ⟨[⟨"factorial", [⟨"n", .int⟩], .int,
     .blockS [
       .varDecl "result" .int (.intLit .int 1),
       .whileS (.binary .bool .EXPR_GT (.var .int "n") (.intLit .int 1))
         (.blockS [
           .assign "result"
             (.binary .int .EXPR_MUL (.var .int "result") (.var .int "n")),
           .assign "n"
             (.binary .int .EXPR_SUB (.var .int "n") (.intLit .int 1))]),
       .returnS (some (.var .int "result"))]⟩,
    ⟨"main", [], .int,
     .blockS [
       .varDecl "x" .int (.intLit .int 5),
       .varDecl "fact" .int (.call .int "factorial" [.var .int "x"]),
       .exprS (.call .void "print" [.var .int "fact"]),
       .returnS (some (.intLit .int 0))]⟩]⟩

mutual

/-- Every `var` declaration in a statement has its declared type equal to
its initializer's annotated type. -/
def stmtVarDeclOk : ASTStmt → Bool
  | .varDecl _ ty init => ty == init.ty
  | .assign _ _ => true
  | .ifS _ t e =>
      stmtVarDeclOk t && (match e with | none => true | some s => stmtVarDeclOk s)
  | .whileS _ b => stmtVarDeclOk b
  | .returnS _ => true
  | .exprS _ => true
  | .blockS stmts => stmtsVarDeclOk stmts

def stmtsVarDeclOk : List ASTStmt → Bool
  | [] => true
  | s :: rest => stmtVarDeclOk s && stmtsVarDeclOk rest

end

def progVarDeclOk (p : ASTProgram) : Bool :=
  p.functions.all (fun f => stmtVarDeclOk f.body)

/-- A type the spec allows on an expression node: `int` or `bool`. -/
def tyOkB : Ty → Bool
  | .int => true
  | .bool => true
  | .void => false

/-- The scope invariant of the expression-type analysis: every symbol
carries an `int`/`bool` type except the built-in `print` entry. -/
def symOk (s : Symbol) : Bool :=
  tyOkB s.ty || (s.isFunction && s.name == "print")

def scopeOkB (sc : Scope) : Bool := sc.all symOk

def scopesOkB (scopes : Scopes) : Bool := scopes.all scopeOkB

mutual

/-- Every expression node's recorded type is `int` or `bool`. -/
def exprTysOk : ASTExpr → Bool
  | .intLit t _ => tyOkB t
  | .boolLit t _ => tyOkB t
  | .var t _ => tyOkB t
  | .binary t _ l r => tyOkB t && exprTysOk l && exprTysOk r
  | .unary t _ o => tyOkB t && exprTysOk o
  | .call t _ args => tyOkB t && exprsTysOk args

def exprsTysOk : List ASTExpr → Bool
  | [] => true
  | e :: rest => exprTysOk e && exprsTysOk rest

end

mutual

/-- No call to the built-in `print` occurs in the expression. -/
def exprNoPrint : ASTExpr → Bool
  | .intLit _ _ => true
  | .boolLit _ _ => true
  | .var _ _ => true
  | .binary _ _ l r => exprNoPrint l && exprNoPrint r
  | .unary _ _ o => exprNoPrint o
  | .call _ name args => !(name == "print") && exprsNoPrint args

def exprsNoPrint : List ASTExpr → Bool
  | [] => true
  | e :: rest => exprNoPrint e && exprsNoPrint rest

end

mutual

/-- Every expression node reachable from the statement has an `int`/`bool`
type. -/
def stmtExprsOk : ASTStmt → Bool
  | .varDecl _ _ init => exprTysOk init
  | .assign _ e => exprTysOk e
  | .ifS c t e =>
      exprTysOk c && stmtExprsOk t &&
        (match e with | none => true | some s => stmtExprsOk s)
  | .whileS c b => exprTysOk c && stmtExprsOk b
  | .returnS none => true
  | .returnS (some e) => exprTysOk e
  | .exprS e => exprTysOk e
  | .blockS stmts => stmtsExprsOk stmts

def stmtsExprsOk : List ASTStmt → Bool
  | [] => true
  | s :: rest => stmtExprsOk s && stmtsExprsOk rest

end

mutual

/-- No call to the built-in `print` occurs in the statement. -/
def stmtNoPrint : ASTStmt → Bool
  | .varDecl _ _ init => exprNoPrint init
  | .assign _ e => exprNoPrint e
  | .ifS c t e =>
      exprNoPrint c && stmtNoPrint t &&
        (match e with | none => true | some s => stmtNoPrint s)
  | .whileS c b => exprNoPrint c && stmtNoPrint b
  | .returnS none => true
  | .returnS (some e) => exprNoPrint e
  | .exprS e => exprNoPrint e
  | .blockS stmts => stmtsNoPrint stmts

def stmtsNoPrint : List ASTStmt → Bool
  | [] => true
  | s :: rest => stmtNoPrint s && stmtsNoPrint rest

end

def progExprTysOk (p : ASTProgram) : Bool :=
  p.functions.all (fun f => stmtExprsOk f.body)

def progNoPrint (p : ASTProgram) : Bool :=
  p.functions.all (fun f => stmtNoPrint f.body)

/-- The program `func main() : int { print(1); return 0; }` as the parser
delivers it. -/
def progPr : ASTProgram :=
  ⟨[⟨"main", [], type_int,
     .blockS [ast_stmt_expr (ast_expr_call "print" [ast_expr_int_literal 1]),
              .returnS (some (ast_expr_int_literal 0))]⟩]⟩

/-- The typed AST the checker produces on `progPr`: the `print` call node
is annotated `void`. -/
def progPrChecked : ASTProgram :=
  ⟨[⟨"main", [], type_int,
     .blockS [.exprS (.call type_void "print" [.intLit type_int 1]),
              .returnS (some (.intLit type_int 0))]⟩]⟩

/-- A `print`-free program: `func main() : int { var x = 1; return x; }`. -/
def progNP : ASTProgram :=
  ⟨[⟨"main", [], type_int,
     .blockS [ast_stmt_var_decl "x" type_int (ast_expr_int_literal 1),
              .returnS (some (ast_expr_var "x"))]⟩]⟩

/-- The typed AST the checker produces on `progNP`. -/
def progNPChecked : ASTProgram := (type_check_program progNP).getD ⟨[]⟩

/-- Witness input for the parser half of the var-decl claim: the token
stream of `b = true;` (the `var` keyword already consumed). -/
def pstateW : PState :=
  ⟨[⟨.TOKEN_IDENTIFIER, "b", 1, 0, 1, 5⟩, ⟨.TOKEN_ASSIGN, "=", 1, 0, 1, 7⟩,
    ⟨.TOKEN_TRUE, "true", 4, 0, 1, 9⟩, ⟨.TOKEN_SEMICOLON, ";", 1, 0, 1, 13⟩,
    ⟨.TOKEN_EOF, "", 0, 0, 2, 1⟩], 0⟩

/-- Witness input for the type-checker half: `func main() : int { var b =
true; return 0; }` as the parser would deliver it (provisional `int` on
the declaration and on the literal). -/
def progW : ASTProgram :=
  ⟨[⟨"main", [], type_int,
     .blockS [ast_stmt_var_decl "b" type_int (ast_expr_bool_literal true),
              .returnS (some (ast_expr_int_literal 0))]⟩]⟩

/-- The typed AST the checker produces on `progW`. -/
def progW' : ASTProgram := (type_check_program progW).getD ⟨[]⟩

end TinyLLVM

namespace TinyLLVM

theorem identifier_type_ne_eof (l : List Char) :
    identifier_type l ≠ .TOKEN_EOF := by
  unfold identifier_type
  split_ifs <;> simp

theorem token_create_kind (k : TokenKind) (l : List Char) (n a b : Nat) :
    (token_create k l n a b).kind = k := rfl

theorem scan_identifier_ne_eof (st1 : LexState) :
    (scan_identifier st1).1.kind ≠ .TOKEN_EOF := by
  simp only [scan_identifier, token_create_kind]
  exact identifier_type_ne_eof _

theorem scan_number_ne_eof (st1 : LexState) :
    (scan_number st1).1.kind ≠ .TOKEN_EOF := by
  simp only [scan_number, token_create_kind]
  decide

theorem scan_two_char_ne_eof (st1 : LexState) (c second : Char)
    (twoKind oneKind : TokenKind) (startColumn : Nat)
    (h1 : twoKind ≠ .TOKEN_EOF) (h2 : oneKind ≠ .TOKEN_EOF) :
    (scan_two_char st1 c second twoKind oneKind startColumn).1.kind ≠
      .TOKEN_EOF := by
  simp only [scan_two_char]
  split_ifs <;> simpa only [token_create_kind] using by assumption

set_option maxHeartbeats 1000000 in
/-- No branch of the character dispatch emits an `EOF` token. -/
theorem scan_symbol_ne_eof (st1 : LexState) (c : Char) (startColumn : Nat) :
    (scan_symbol st1 c startColumn).1.kind ≠ .TOKEN_EOF := by
  unfold scan_symbol
  by_cases h1 : is_alpha c = true
  case pos => rw [if_pos h1]; exact scan_identifier_ne_eof _
  rw [if_neg h1]
  by_cases h2 : is_digit c = true
  case pos => rw [if_pos h2]; exact scan_number_ne_eof _
  rw [if_neg h2]
  by_cases h3 : (c == '(') = true
  case pos => rw [if_pos h3]; simp [token_create_kind]
  rw [if_neg h3]
  by_cases h4 : (c == ')') = true
  case pos => rw [if_pos h4]; simp [token_create_kind]
  rw [if_neg h4]
  by_cases h5 : (c == lbraceChar) = true
  case pos => rw [if_pos h5]; simp [token_create_kind]
  rw [if_neg h5]
  by_cases h6 : (c == rbraceChar) = true
  case pos => rw [if_pos h6]; simp [token_create_kind]
  rw [if_neg h6]
  by_cases h7 : (c == ';') = true
  case pos => rw [if_pos h7]; simp [token_create_kind]
  rw [if_neg h7]
  by_cases h8 : (c == ':') = true
  case pos => rw [if_pos h8]; simp [token_create_kind]
  rw [if_neg h8]
  by_cases h9 : (c == ',') = true
  case pos => rw [if_pos h9]; simp [token_create_kind]
  rw [if_neg h9]
  by_cases h10 : (c == '+') = true
  case pos => rw [if_pos h10]; simp [token_create_kind]
  rw [if_neg h10]
  by_cases h11 : (c == '-') = true
  case pos => rw [if_pos h11]; simp [token_create_kind]
  rw [if_neg h11]
  by_cases h12 : (c == '*') = true
  case pos => rw [if_pos h12]; simp [token_create_kind]
  rw [if_neg h12]
  by_cases h13 : (c == '/') = true
  case pos => rw [if_pos h13]; simp [token_create_kind]
  rw [if_neg h13]
  by_cases h14 : (c == '%') = true
  case pos => rw [if_pos h14]; simp [token_create_kind]
  rw [if_neg h14]
  by_cases h15 : (c == '=') = true
  case pos => rw [if_pos h15]; exact scan_two_char_ne_eof _ _ _ _ _ _ (by simp) (by simp)
  rw [if_neg h15]
  by_cases h16 : (c == '!') = true
  case pos => rw [if_pos h16]; exact scan_two_char_ne_eof _ _ _ _ _ _ (by simp) (by simp)
  rw [if_neg h16]
  by_cases h17 : (c == '<') = true
  case pos => rw [if_pos h17]; exact scan_two_char_ne_eof _ _ _ _ _ _ (by simp) (by simp)
  rw [if_neg h17]
  by_cases h18 : (c == '>') = true
  case pos => rw [if_pos h18]; exact scan_two_char_ne_eof _ _ _ _ _ _ (by simp) (by simp)
  rw [if_neg h18]
  by_cases h19 : (c == '&') = true
  case pos => rw [if_pos h19]; exact scan_two_char_ne_eof _ _ _ _ _ _ (by simp) (by simp)
  rw [if_neg h19]
  by_cases h20 : (c == '|') = true
  case pos => rw [if_pos h20]; exact scan_two_char_ne_eof _ _ _ _ _ _ (by simp) (by simp)
  rw [if_neg h20]
  simp [token_create_kind]

/-- `scan_token` emits an `EOF` token only from the at-end branch, whose
token carries the line and column of the state scanning stopped in. -/
theorem scan_token_eof_pos (st : LexState) :
    (scan_token st).1.kind = .TOKEN_EOF →
    (scan_token st).1.line = (scan_token st).2.line ∧
    (scan_token st).1.column = (scan_token st).2.column := by
  simp only [scan_token]
  rcases hadv : lexer_advance (skip_whitespace (remFuel st) st) with ⟨c, st1⟩
  by_cases hend : lexer_is_at_end (skip_whitespace (remFuel st) st)
  · rw [if_pos hend]
    simp [token_create]
  · rw [if_neg hend]
    intro hk
    exact absurd hk (scan_symbol_ne_eof _ _ _)

/-- The loop invariant of `lex_source`: starting from an accumulator free
of `EOF` tokens, every token before the last stays non-`EOF`, and if the
last token is `EOF` its position is that of the final scanner state. -/
theorem lexLoop_spec :
    ∀ (fuel : Nat) (st : LexState) (acc : List Token),
      (∀ t ∈ acc, t.kind ≠ .TOKEN_EOF) →
      (∀ t ∈ (lexLoop fuel st acc).1.dropLast, t.kind ≠ .TOKEN_EOF) ∧
      (∀ t, (lexLoop fuel st acc).1.getLast? = some t → t.kind = .TOKEN_EOF →
        t.line = (lexLoop fuel st acc).2.line ∧
        t.column = (lexLoop fuel st acc).2.column) := by
  intro fuel
  induction fuel with
  | zero =>
      intro st acc hacc
      simp only [lexLoop]
      refine ⟨fun t ht => hacc t (List.dropLast_subset _ ht), ?_⟩
      intro t hlast hkind
      exact absurd hkind (hacc t (List.mem_of_mem_getLast? (by simp [hlast])))
  | succ n ih =>
      intro st acc hacc
      by_cases hend : lexer_is_at_end st
      · simp only [lexLoop, hend, if_true]
        refine ⟨fun t ht => hacc t (List.dropLast_subset _ ht), ?_⟩
        intro t hlast hkind
        exact absurd hkind (hacc t (List.mem_of_mem_getLast? (by simp [hlast])))
      · rcases hscan : scan_token st with ⟨tok, st2⟩
        by_cases hkind : tok.kind = .TOKEN_EOF
        · simp only [lexLoop, hend, Bool.false_eq_true, if_false, hscan, hkind,
            if_true]
          constructor
          · intro t ht
            rw [List.dropLast_concat] at ht
            exact hacc t ht
          · intro t hlast _
            rw [List.getLast?_concat] at hlast
            cases hlast
            have := scan_token_eof_pos st
            rw [hscan] at this
            exact this hkind
        · have hacc2 : ∀ t ∈ acc ++ [tok], t.kind ≠ .TOKEN_EOF := by
            intro t ht
            rcases List.mem_append.mp ht with h | h
            · exact hacc t h
            · rcases List.mem_singleton.mp h with rfl
              exact hkind
          simpa only [lexLoop, hend, Bool.false_eq_true, if_false, hscan, hkind]
            using ih st2 (acc ++ [tok]) hacc2

/-- C9: for every input, `lex_source` produces a non-empty token list
whose last token is `EOF` positioned at the line and column where
scanning stopped, and no earlier token is `EOF`. -/
theorem lex_source_eof_invariants (source : List Char) :
    lex_source source ≠ [] ∧
    (∃ t, (lex_source source).getLast? = some t ∧ t.kind = .TOKEN_EOF ∧
      t.line = (lex_source_full source).2.line ∧
      t.column = (lex_source_full source).2.column) ∧
    (∀ t ∈ (lex_source source).dropLast, t.kind ≠ .TOKEN_EOF) := by
  have hspec := lexLoop_spec (source.length + 1) ⟨source, 0, 1, 0⟩ []
    (by intro t ht; simp at ht)
  rcases hrun : lexLoop (source.length + 1) ⟨source, 0, 1, 0⟩ [] with ⟨toks, stF⟩
  rw [hrun] at hspec
  simp only at hspec
  have hfull : lex_source_full source =
      (match toks.getLast? with
        | some t =>
            if t.kind = .TOKEN_EOF then (toks, stF)
            else (toks ++ [token_create .TOKEN_EOF [] 0 stF.line stF.column], stF)
        | none => ([token_create .TOKEN_EOF [] 0 stF.line stF.column], stF)) := by
    simp only [lex_source_full]
    rw [hrun]
  unfold lex_source
  rw [hfull]
  cases hlast : toks.getLast? with
  | none =>
      have htoks : toks = [] := List.getLast?_eq_none_iff.mp hlast
      subst htoks
      simp [token_create]
  | some t =>
      by_cases hkind : t.kind = .TOKEN_EOF
      · simp only [hkind, if_true]
        refine ⟨?_, ⟨t, hlast, hkind, hspec.2 t hlast hkind⟩, hspec.1⟩
        intro hc
        rw [hc] at hlast
        simp at hlast
      · simp only [hkind, if_false, Bool.false_eq_true]
        have htoksall : ∀ x ∈ toks, x.kind ≠ .TOKEN_EOF := by
          intro x hx
          have hsplit := List.dropLast_append_getLast? t hlast
          rw [← hsplit] at hx
          rcases List.mem_append.mp hx with h | h
          · exact hspec.1 x h
          · rcases List.mem_singleton.mp h with rfl
            exact hkind
        refine ⟨by simp, ?_, ?_⟩
        · refine ⟨token_create .TOKEN_EOF [] 0 stF.line stF.column,
            by rw [List.getLast?_concat], by simp [token_create], ?_, ?_⟩ <;>
            simp [token_create]
        · intro x hx
          rw [List.dropLast_concat] at hx
          exact htoksall x hx

theorem check_statement_vardecl_aux (retTy : Ty) :
    ∀ n : Nat,
      (∀ s : ASTStmt, sizeOf s ≤ n → ∀ scopes s' scopes',
        check_statement retTy scopes s = some (s', scopes') →
        stmtVarDeclOk s' = true) ∧
      (∀ l : List ASTStmt, sizeOf l ≤ n → ∀ scopes l' scopes',
        check_stmt_list retTy scopes l = some (l', scopes') →
        stmtsVarDeclOk l' = true) := by
  intro n
  induction n using Nat.strong_induction_on with
  | _ n IH =>
  constructor
  · intro s hs scopes s' scopes' h
    cases s with
    | varDecl name ty init =>
        cases scopes with
        | nil =>
            simp only [check_statement] at h
            exact absurd h (by simp)
        | cons cur parents =>
            simp only [check_statement] at h
            split at h
            · exact absurd h (by simp)
            · split at h
              · exact absurd h (by simp)
              · simp only [Option.some.injEq, Prod.mk.injEq] at h
                obtain ⟨hs', -⟩ := h
                subst hs'
                simp [stmtVarDeclOk]
    | assign name e =>
        simp only [check_statement] at h
        split at h
        · exact absurd h (by simp)
        · split at h
          · exact absurd h (by simp)
          · split at h
            · exact absurd h (by simp)
            · split at h
              · simp only [Option.some.injEq, Prod.mk.injEq] at h
                obtain ⟨hs', -⟩ := h
                subst hs'
                simp [stmtVarDeclOk]
              · exact absurd h (by simp)
    | ifS cond thenB elseB =>
        cases elseB with
        | none =>
            simp only [check_statement] at h
            split at h
            · exact absurd h (by simp)
            · split at h
              · exact absurd h (by simp)
              · split at h
                · exact absurd h (by simp)
                · rename_i cond1 _ _ then1 scopes1 hthen
                  have hthenOk : stmtVarDeclOk then1 = true := by
                    have hlt : sizeOf thenB < n := by
                      have : sizeOf thenB < sizeOf (ASTStmt.ifS cond thenB none) := by
                        simp
                        omega
                      omega
                    exact (IH (sizeOf thenB) hlt).1 thenB le_rfl _ _ _ hthen
                  simp only [Option.some.injEq, Prod.mk.injEq] at h
                  obtain ⟨hs', -⟩ := h
                  subst hs'
                  simp [stmtVarDeclOk, hthenOk]
        | some e =>
            simp only [check_statement] at h
            split at h
            · exact absurd h (by simp)
            · split at h
              · exact absurd h (by simp)
              · split at h
                · exact absurd h (by simp)
                · rename_i cond1 _ _ then1 scopes1 hthen
                  have hthenOk : stmtVarDeclOk then1 = true := by
                    have hlt : sizeOf thenB < n := by
                      have : sizeOf thenB < sizeOf (ASTStmt.ifS cond thenB (some e)) := by
                        simp
                        omega
                      omega
                    exact (IH (sizeOf thenB) hlt).1 thenB le_rfl _ _ _ hthen
                  split at h
                  · exact absurd h (by simp)
                  · rename_i else1 scopes2 helse
                    have helseOk : stmtVarDeclOk else1 = true := by
                      have hlt : sizeOf e < n := by
                        have : sizeOf e < sizeOf (ASTStmt.ifS cond thenB (some e)) := by
                          simp
                          omega
                        omega
                      exact (IH (sizeOf e) hlt).1 e le_rfl _ _ _ helse
                    simp only [Option.some.injEq, Prod.mk.injEq] at h
                    obtain ⟨hs', -⟩ := h
                    subst hs'
                    simp [stmtVarDeclOk, hthenOk, helseOk]
    | whileS cond body =>
        simp only [check_statement] at h
        split at h
        · exact absurd h (by simp)
        · split at h
          · exact absurd h (by simp)
          · split at h
            · exact absurd h (by simp)
            · rename_i cond1 _ _ body1 scopes1 hbody
              have hbodyOk : stmtVarDeclOk body1 = true := by
                have hlt : sizeOf body < n := by
                  have : sizeOf body < sizeOf (ASTStmt.whileS cond body) := by
                    simp
                  omega
                exact (IH (sizeOf body) hlt).1 body le_rfl _ _ _ hbody
              simp only [Option.some.injEq, Prod.mk.injEq] at h
              obtain ⟨hs', -⟩ := h
              subst hs'
              simp [stmtVarDeclOk, hbodyOk]
    | returnS e =>
        cases e with
        | none =>
            simp only [check_statement] at h
            split at h
            · exact absurd h (by simp)
            · simp only [Option.some.injEq, Prod.mk.injEq] at h
              obtain ⟨hs', -⟩ := h
              subst hs'
              simp [stmtVarDeclOk]
        | some ex =>
            simp only [check_statement] at h
            split at h
            · exact absurd h (by simp)
            · split at h
              · simp only [Option.some.injEq, Prod.mk.injEq] at h
                obtain ⟨hs', -⟩ := h
                subst hs'
                simp [stmtVarDeclOk]
              · exact absurd h (by simp)
    | exprS e =>
        simp only [check_statement] at h
        split at h
        · exact absurd h (by simp)
        · simp only [Option.some.injEq, Prod.mk.injEq] at h
          obtain ⟨hs', -⟩ := h
          subst hs'
          simp [stmtVarDeclOk]
    | blockS stmts =>
        simp only [check_statement] at h
        split at h
        · exact absurd h (by simp)
        · rename_i stmts1 scopes1 hlist
          have hlistOk : stmtsVarDeclOk stmts1 = true := by
            have hlt : sizeOf stmts < n := by
              have : sizeOf stmts < sizeOf (ASTStmt.blockS stmts) := by
                simp
              omega
            exact (IH (sizeOf stmts) hlt).2 stmts le_rfl _ _ _ hlist
          simp only [Option.some.injEq, Prod.mk.injEq] at h
          obtain ⟨hs', -⟩ := h
          subst hs'
          simp [stmtVarDeclOk, hlistOk]
  · intro l hl scopes l' scopes' h
    cases l with
    | nil =>
        simp only [check_stmt_list, Option.some.injEq, Prod.mk.injEq] at h
        obtain ⟨hl', -⟩ := h
        subst hl'
        simp [stmtsVarDeclOk]
    | cons s rest =>
        simp only [check_stmt_list] at h
        split at h
        · exact absurd h (by simp)
        · rename_i s1 scopes1 hstep
          split at h
          · exact absurd h (by simp)
          · rename_i rest1 scopes2 hrest
            have hsOk : stmtVarDeclOk s1 = true := by
              have hlt : sizeOf s < n := by
                have : sizeOf s < sizeOf (s :: rest) := by
                  simp
                  omega
                omega
              exact (IH (sizeOf s) hlt).1 s le_rfl _ _ _ hstep
            have hrestOk : stmtsVarDeclOk rest1 = true := by
              have hlt : sizeOf rest < n := by
                have : sizeOf rest < sizeOf (s :: rest) := by
                  simp
                omega
              exact (IH (sizeOf rest) hlt).2 rest le_rfl _ _ _ hrest
            simp only [Option.some.injEq, Prod.mk.injEq] at h
            obtain ⟨hl', -⟩ := h
            subst hl'
            simp [stmtsVarDeclOk, hsOk, hrestOk]

theorem typeCheckPass2_vardecl (globals : Scope) :
    ∀ (funcs funcs1 : List ASTFunc),
      typeCheckPass2 globals funcs = some funcs1 →
      funcs1.all (fun f => stmtVarDeclOk f.body) = true := by
  intro funcs
  induction funcs with
  | nil =>
      intro funcs1 h
      simp only [typeCheckPass2, Option.some.injEq] at h
      subst h
      simp
  | cons f rest ih =>
      intro funcs1 h
      simp only [typeCheckPass2] at h
      split at h
      · exact absurd h (by simp)
      · rename_i body1 scopes1 hbody
        split at h
        · exact absurd h (by simp)
        · rename_i rest1 hrest
          simp only [Option.some.injEq] at h
          subst h
          have h1 := (check_statement_vardecl_aux f.returnType (sizeOf f.body)).1
            f.body le_rfl _ _ _ hbody
          have h2 := ih rest1 hrest
          simp_all

theorem exprTysOk_ty (e : ASTExpr) (h : exprTysOk e = true) :
    tyOkB e.ty = true := by
  cases e <;> simp_all [exprTysOk, ASTExpr.ty, Bool.and_eq_true]

theorem symbol_table_lookup_symOk :
    ∀ (scopes : Scopes) (name : String) (sym : Symbol),
      scopesOkB scopes = true →
      symbol_table_lookup scopes name = some sym →
      symOk sym = true ∧ sym.name = name := by
  intro scopes
  induction scopes with
  | nil => intro name sym _ h; simp [symbol_table_lookup] at h
  | cons sc parents ih =>
      intro name sym hok h
      simp only [scopesOkB, List.all_cons, Bool.and_eq_true] at hok
      simp only [symbol_table_lookup] at h
      split at h
      · rename_i sym0 hfind
        simp only [Option.some.injEq] at h
        subst h
        refine ⟨?_, ?_⟩
        · have hmem := List.mem_of_find?_eq_some hfind
          have hsc := hok.1
          simp only [scopeOkB, List.all_eq_true] at hsc
          exact hsc _ hmem
        · have hp := List.find?_some hfind
          exact of_decide_eq_true hp
      · exact ih name sym hok.2 h

theorem binary_check_result_types (kind : ExprKind) (l r e1 : ASTExpr)
    (hl : exprTysOk l = true) (hr : exprTysOk r = true)
    (h : binary_check_result kind l r = some e1) :
    exprTysOk e1 = true := by
  cases kind <;> simp only [binary_check_result] at h <;>
    (try exact Option.noConfusion h) <;>
    (repeat' split at h) <;>
    (try exact Option.noConfusion h) <;>
    (simp only [Option.some.injEq] at h
     subst h
     simp [exprTysOk, tyOkB, type_int, type_bool, hl, hr])

theorem check_expression_types_aux :
    ∀ n : Nat,
      (∀ e : ASTExpr, sizeOf e ≤ n → ∀ scopes e1,
        scopesOkB scopes = true → exprNoPrint e = true →
        check_expression scopes e = some e1 → exprTysOk e1 = true) ∧
      (∀ l : List ASTExpr, sizeOf l ≤ n → ∀ scopes ptys l1,
        scopesOkB scopes = true → exprsNoPrint l = true →
        check_args scopes l ptys = some l1 → exprsTysOk l1 = true) := by
  intro n
  induction n using Nat.strong_induction_on with
  | _ n IH =>
  constructor
  · intro e he scopes e1 hsc hnp h
    cases e with
    | intLit t v =>
        simp only [check_expression, Option.some.injEq] at h
        subst h
        simp [exprTysOk, tyOkB, type_int]
    | boolLit t v =>
        simp only [check_expression, Option.some.injEq] at h
        subst h
        simp [exprTysOk, tyOkB, type_bool]
    | var t name =>
        simp only [check_expression] at h
        split at h
        · exact absurd h (by simp)
        · rename_i sym hlook
          split at h
          · exact absurd h (by simp)
          · rename_i hfn
            simp only [Option.some.injEq] at h
            subst h
            obtain ⟨hok, -⟩ := symbol_table_lookup_symOk scopes name sym hsc hlook
            simp only [symOk, Bool.or_eq_true, Bool.and_eq_true] at hok
            rcases hok with hok | ⟨hfn2, -⟩
            · simpa [exprTysOk] using hok
            · exact absurd hfn2 hfn
    | binary t kind left right =>
        simp only [check_expression] at h
        split at h
        · exact absurd h (by simp)
        · rename_i l hleft
          split at h
          · exact absurd h (by simp)
          · rename_i r hright
            simp only [exprNoPrint, Bool.and_eq_true] at hnp
            have hlOk : exprTysOk l = true := by
              have hlt : sizeOf left < n := by
                have : sizeOf left < sizeOf (ASTExpr.binary t kind left right) := by
                  simp <;> omega
                omega
              exact (IH (sizeOf left) hlt).1 left le_rfl scopes l hsc hnp.1 hleft
            have hrOk : exprTysOk r = true := by
              have hlt : sizeOf right < n := by
                have : sizeOf right < sizeOf (ASTExpr.binary t kind left right) := by
                  simp <;> omega
                omega
              exact (IH (sizeOf right) hlt).1 right le_rfl scopes r hsc hnp.2 hright
            exact binary_check_result_types kind l r e1 hlOk hrOk h
    | unary t kind operand =>
        cases kind <;>
          first
            | (simp only [check_expression] at h
               exact Option.noConfusion h)
            | (simp only [check_expression] at h
               split at h
               · exact absurd h (by simp)
               · rename_i o ho
                 split at h
                 · exact absurd h (by simp)
                 · simp only [Option.some.injEq] at h
                   subst h
                   simp only [exprNoPrint] at hnp
                   have hoOk : exprTysOk o = true := by
                     have hlt : sizeOf operand < n := by
                       have : sizeOf operand <
                           sizeOf (ASTExpr.unary t ExprKind.EXPR_NOT operand) := by
                         simp <;> omega
                       omega
                     exact (IH (sizeOf operand) hlt).1 operand le_rfl scopes o hsc hnp ho
                   simp [exprTysOk, tyOkB, type_bool, hoOk])
    | call t name args =>
        simp only [check_expression] at h
        split at h
        · exact absurd h (by simp)
        · rename_i sym hlook
          split at h
          · exact absurd h (by simp)
          · split at h
            · exact absurd h (by simp)
            · split at h
              · exact absurd h (by simp)
              · rename_i args1 hargs
                simp only [Option.some.injEq] at h
                subst h
                simp only [exprNoPrint, Bool.and_eq_true] at hnp
                obtain ⟨hok, hname⟩ := symbol_table_lookup_symOk scopes name sym hsc hlook
                simp only [symOk, Bool.or_eq_true, Bool.and_eq_true] at hok
                rcases hok with hok | ⟨-, hpr⟩
                · have hargsOk : exprsTysOk args1 = true := by
                    have hlt : sizeOf args < n := by
                      have : sizeOf args < sizeOf (ASTExpr.call t name args) := by
                        simp <;> omega
                      omega
                    exact (IH (sizeOf args) hlt).2 args le_rfl scopes sym.paramTypes
                      args1 hsc hnp.2 hargs
                  simp [exprTysOk, hok, hargsOk]
                · rw [hname] at hpr
                  simp [hpr] at hnp
  · intro l hl scopes ptys l1 hsc hnp h
    cases l with
    | nil =>
        simp only [check_args, Option.some.injEq] at h
        subst h
        simp [exprsTysOk]
    | cons a rest =>
        cases ptys with
        | nil =>
            simp only [check_args] at h
            exact Option.noConfusion h
        | cons pty ptys1 =>
            simp only [check_args] at h
            split at h
            · exact absurd h (by simp)
            · rename_i a1 ha
              split at h
              · split at h
                · exact absurd h (by simp)
                · rename_i rest1 hrest
                  simp only [Option.some.injEq] at h
                  subst h
                  simp only [exprsNoPrint, Bool.and_eq_true] at hnp
                  have haOk : exprTysOk a1 = true := by
                    have hlt : sizeOf a < n := by
                      have : sizeOf a < sizeOf (a :: rest) := by
                        simp <;> omega
                      omega
                    exact (IH (sizeOf a) hlt).1 a le_rfl scopes a1 hsc hnp.1 ha
                  have hrestOk : exprsTysOk rest1 = true := by
                    have hlt : sizeOf rest < n := by
                      have : sizeOf rest < sizeOf (a :: rest) := by
                        simp <;> omega
                      omega
                    exact (IH (sizeOf rest) hlt).2 rest le_rfl scopes ptys1
                      rest1 hsc hnp.2 hrest
                  simp [exprsTysOk, haOk, hrestOk]
              · exact absurd h (by simp)

theorem scopesOkB_add (cur : Scope) (parents : Scopes) (sym : Symbol)
    (cur1 : Scope) (hok : scopesOkB (cur :: parents) = true)
    (hs : symOk sym = true) (hadd : symbol_table_add cur sym = some cur1) :
    scopesOkB (cur1 :: parents) = true := by
  simp only [symbol_table_add] at hadd
  split at hadd
  · exact absurd hadd (by simp)
  · simp only [Option.some.injEq] at hadd
    subst hadd
    simp only [scopesOkB, scopeOkB, List.all_cons, List.all_append,
      Bool.and_eq_true] at hok ⊢
    exact ⟨⟨hok.1, by simp [hs]⟩, hok.2⟩

theorem check_statement_types_aux (retTy : Ty) :
    ∀ n : Nat,
      (∀ s : ASTStmt, sizeOf s ≤ n → ∀ scopes s' scopes',
        scopesOkB scopes = true → stmtNoPrint s = true →
        check_statement retTy scopes s = some (s', scopes') →
        stmtExprsOk s' = true ∧ scopesOkB scopes' = true) ∧
      (∀ l : List ASTStmt, sizeOf l ≤ n → ∀ scopes l' scopes',
        scopesOkB scopes = true → stmtsNoPrint l = true →
        check_stmt_list retTy scopes l = some (l', scopes') →
        stmtsExprsOk l' = true ∧ scopesOkB scopes' = true) := by
  intro n
  induction n using Nat.strong_induction_on with
  | _ n IH =>
  constructor
  · intro s hs scopes s' scopes' hsc hnp h
    cases s with
    | varDecl name ty init =>
        cases scopes with
        | nil =>
            simp only [check_statement] at h
            exact absurd h (by simp)
        | cons cur parents =>
            simp only [check_statement] at h
            split at h
            · exact absurd h (by simp)
            · rename_i init1 hinit
              split at h
              · exact absurd h (by simp)
              · rename_i cur1 hadd
                simp only [Option.some.injEq, Prod.mk.injEq] at h
                obtain ⟨hs', hscopes'⟩ := h
                subst hs'
                subst hscopes'
                simp only [stmtNoPrint] at hnp
                have hinitOk : exprTysOk init1 = true :=
                  (check_expression_types_aux (sizeOf init)).1 init le_rfl
                    (cur :: parents) init1 hsc hnp hinit
                refine ⟨by simpa [stmtExprsOk] using hinitOk, ?_⟩
                exact scopesOkB_add cur parents _ cur1 hsc
                  (by simp [symOk, exprTysOk_ty init1 hinitOk]) hadd
    | assign name e =>
        simp only [check_statement] at h
        split at h
        · exact absurd h (by simp)
        · split at h
          · exact absurd h (by simp)
          · split at h
            · exact absurd h (by simp)
            · rename_i e1 he
              split at h
              · simp only [Option.some.injEq, Prod.mk.injEq] at h
                obtain ⟨hs', hscopes'⟩ := h
                subst hs'
                subst hscopes'
                simp only [stmtNoPrint] at hnp
                have heOk : exprTysOk e1 = true :=
                  (check_expression_types_aux (sizeOf e)).1 e le_rfl
                    scopes e1 hsc hnp he
                exact ⟨by simpa [stmtExprsOk] using heOk, hsc⟩
              · exact absurd h (by simp)
    | ifS cond thenB elseB =>
        cases elseB with
        | none =>
            simp only [check_statement] at h
            split at h
            · exact absurd h (by simp)
            · rename_i cond1 hcond
              split at h
              · exact absurd h (by simp)
              · split at h
                · exact absurd h (by simp)
                · rename_i then1 scopes1 hthen
                  simp only [stmtNoPrint, Bool.and_eq_true] at hnp
                  have hcondOk : exprTysOk cond1 = true :=
                    (check_expression_types_aux (sizeOf cond)).1 cond le_rfl
                      scopes cond1 hsc hnp.1.1 hcond
                  have hthenOk : stmtExprsOk then1 = true ∧
                      scopesOkB scopes1 = true := by
                    have hlt : sizeOf thenB < n := by
                      have : sizeOf thenB < sizeOf (ASTStmt.ifS cond thenB none) := by
                        simp <;> omega
                      omega
                    exact (IH (sizeOf thenB) hlt).1 thenB le_rfl scopes _ _
                      hsc hnp.1.2 hthen
                  simp only [Option.some.injEq, Prod.mk.injEq] at h
                  obtain ⟨hs', hscopes'⟩ := h
                  subst hs'
                  subst hscopes'
                  exact ⟨by simp [stmtExprsOk, hcondOk, hthenOk.1], hthenOk.2⟩
        | some e =>
            simp only [check_statement] at h
            split at h
            · exact absurd h (by simp)
            · rename_i cond1 hcond
              split at h
              · exact absurd h (by simp)
              · split at h
                · exact absurd h (by simp)
                · rename_i then1 scopes1 hthen
                  simp only [stmtNoPrint, Bool.and_eq_true] at hnp
                  have hcondOk : exprTysOk cond1 = true :=
                    (check_expression_types_aux (sizeOf cond)).1 cond le_rfl
                      scopes cond1 hsc hnp.1.1 hcond
                  have hthenOk : stmtExprsOk then1 = true ∧
                      scopesOkB scopes1 = true := by
                    have hlt : sizeOf thenB < n := by
                      have : sizeOf thenB <
                          sizeOf (ASTStmt.ifS cond thenB (some e)) := by
                        simp <;> omega
                      omega
                    exact (IH (sizeOf thenB) hlt).1 thenB le_rfl scopes _ _
                      hsc hnp.1.2 hthen
                  split at h
                  · exact absurd h (by simp)
                  · rename_i else1 scopes2 helse
                    have helseOk : stmtExprsOk else1 = true ∧
                        scopesOkB scopes2 = true := by
                      have hlt : sizeOf e < n := by
                        have : sizeOf e <
                            sizeOf (ASTStmt.ifS cond thenB (some e)) := by
                          simp <;> omega
                        omega
                      exact (IH (sizeOf e) hlt).1 e le_rfl scopes1 _ _
                        hthenOk.2 hnp.2 helse
                    simp only [Option.some.injEq, Prod.mk.injEq] at h
                    obtain ⟨hs', hscopes'⟩ := h
                    subst hs'
                    subst hscopes'
                    exact ⟨by simp [stmtExprsOk, hcondOk, hthenOk.1, helseOk.1],
                      helseOk.2⟩
    | whileS cond body =>
        simp only [check_statement] at h
        split at h
        · exact absurd h (by simp)
        · rename_i cond1 hcond
          split at h
          · exact absurd h (by simp)
          · split at h
            · exact absurd h (by simp)
            · rename_i body1 scopes1 hbody
              simp only [stmtNoPrint, Bool.and_eq_true] at hnp
              have hcondOk : exprTysOk cond1 = true :=
                (check_expression_types_aux (sizeOf cond)).1 cond le_rfl
                  scopes cond1 hsc hnp.1 hcond
              have hbodyOk : stmtExprsOk body1 = true ∧
                  scopesOkB scopes1 = true := by
                have hlt : sizeOf body < n := by
                  have : sizeOf body < sizeOf (ASTStmt.whileS cond body) := by
                    simp <;> omega
                  omega
                exact (IH (sizeOf body) hlt).1 body le_rfl scopes _ _
                  hsc hnp.2 hbody
              simp only [Option.some.injEq, Prod.mk.injEq] at h
              obtain ⟨hs', hscopes'⟩ := h
              subst hs'
              subst hscopes'
              exact ⟨by simp [stmtExprsOk, hcondOk, hbodyOk.1], hbodyOk.2⟩
    | returnS e =>
        cases e with
        | none =>
            simp only [check_statement] at h
            split at h
            · exact absurd h (by simp)
            · simp only [Option.some.injEq, Prod.mk.injEq] at h
              obtain ⟨hs', hscopes'⟩ := h
              subst hs'
              subst hscopes'
              exact ⟨by simp [stmtExprsOk], hsc⟩
        | some ex =>
            simp only [check_statement] at h
            split at h
            · exact absurd h (by simp)
            · rename_i e1 he
              split at h
              · simp only [Option.some.injEq, Prod.mk.injEq] at h
                obtain ⟨hs', hscopes'⟩ := h
                subst hs'
                subst hscopes'
                simp only [stmtNoPrint] at hnp
                have heOk : exprTysOk e1 = true :=
                  (check_expression_types_aux (sizeOf ex)).1 ex le_rfl
                    scopes e1 hsc hnp he
                exact ⟨by simpa [stmtExprsOk] using heOk, hsc⟩
              · exact absurd h (by simp)
    | exprS e =>
        simp only [check_statement] at h
        split at h
        · exact absurd h (by simp)
        · rename_i e1 he
          simp only [Option.some.injEq, Prod.mk.injEq] at h
          obtain ⟨hs', hscopes'⟩ := h
          subst hs'
          subst hscopes'
          simp only [stmtNoPrint] at hnp
          have heOk : exprTysOk e1 = true :=
            (check_expression_types_aux (sizeOf e)).1 e le_rfl
              scopes e1 hsc hnp he
          exact ⟨by simpa [stmtExprsOk] using heOk, hsc⟩
    | blockS stmts =>
        simp only [check_statement] at h
        split at h
        · exact absurd h (by simp)
        · rename_i stmts1 scopes1 hlist
          simp only [stmtNoPrint] at hnp
          have hlistOk : stmtsExprsOk stmts1 = true ∧
              scopesOkB scopes1 = true := by
            have hlt : sizeOf stmts < n := by
              have : sizeOf stmts < sizeOf (ASTStmt.blockS stmts) := by
                simp <;> omega
              omega
            exact (IH (sizeOf stmts) hlt).2 stmts le_rfl ([] :: scopes) _ _
              (by simpa [scopesOkB, scopeOkB] using hsc) hnp hlist
          simp only [Option.some.injEq, Prod.mk.injEq] at h
          obtain ⟨hs', hscopes'⟩ := h
          subst hs'
          subst hscopes'
          exact ⟨by simpa [stmtExprsOk] using hlistOk.1, hsc⟩
  · intro l hl scopes l' scopes' hsc hnp h
    cases l with
    | nil =>
        simp only [check_stmt_list, Option.some.injEq, Prod.mk.injEq] at h
        obtain ⟨hl', hscopes'⟩ := h
        subst hl'
        subst hscopes'
        exact ⟨by simp [stmtsExprsOk], hsc⟩
    | cons s rest =>
        simp only [check_stmt_list] at h
        split at h
        · exact absurd h (by simp)
        · rename_i s1 scopes1 hstep
          split at h
          · exact absurd h (by simp)
          · rename_i rest1 scopes2 hrest
            simp only [stmtsNoPrint, Bool.and_eq_true] at hnp
            have hsOk : stmtExprsOk s1 = true ∧ scopesOkB scopes1 = true := by
              have hlt : sizeOf s < n := by
                have : sizeOf s < sizeOf (s :: rest) := by
                  simp <;> omega
                omega
              exact (IH (sizeOf s) hlt).1 s le_rfl scopes _ _ hsc hnp.1 hstep
            have hrestOk : stmtsExprsOk rest1 = true ∧
                scopesOkB scopes2 = true := by
              have hlt : sizeOf rest < n := by
                have : sizeOf rest < sizeOf (s :: rest) := by
                  simp <;> omega
                omega
              exact (IH (sizeOf rest) hlt).2 rest le_rfl scopes1 _ _
                hsOk.2 hnp.2 hrest
            simp only [Option.some.injEq, Prod.mk.injEq] at h
            obtain ⟨hl', hscopes'⟩ := h
            subst hl'
            subst hscopes'
            exact ⟨by simp [stmtsExprsOk, hsOk.1, hrestOk.1], hrestOk.2⟩

theorem typeCheckPass1_scopeOk :
    ∀ (funcs : List ASTFunc) (g g1 : Scope),
      scopeOkB g = true →
      funcs.all (fun f => tyOkB f.returnType) = true →
      typeCheckPass1 g funcs = some g1 → scopeOkB g1 = true := by
  intro funcs
  induction funcs with
  | nil =>
      intro g g1 hg _ h
      simp only [typeCheckPass1, Option.some.injEq] at h
      subst h
      exact hg
  | cons f rest ih =>
      intro g g1 hg hall h
      simp only [typeCheckPass1] at h
      split at h
      · exact absurd h (by simp)
      · rename_i g2 hadd
        simp only [List.all_cons, Bool.and_eq_true] at hall
        have hg2 : scopeOkB g2 = true := by
          simp only [symbol_table_add] at hadd
          split at hadd
          · exact absurd hadd (by simp)
          · simp only [Option.some.injEq] at hadd
            subst hadd
            have hsym : symOk ⟨f.name, f.returnType, true,
                f.params.map Param.ty⟩ = true := by
              simp [symOk, hall.1]
            simpa [scopeOkB, List.all_append, hsym] using hg
        exact ih g2 g1 hg2 hall.2 h

theorem scopeOkB_add_ignore (sc : Scope) (sym : Symbol)
    (hsc : scopeOkB sc = true) (hs : symOk sym = true) :
    scopeOkB (symbol_table_add_ignore sc sym) = true := by
  by_cases hd : (sc.any (fun s => s.name = sym.name)) = true
  · simp only [symbol_table_add_ignore, symbol_table_add, if_pos hd]
    exact hsc
  · simp only [symbol_table_add_ignore, symbol_table_add, if_neg hd]
    simpa [scopeOkB, List.all_append, hs] using hsc

theorem buildFuncScope_scopeOk :
    ∀ (params : List Param) (sc : Scope),
      scopeOkB sc = true → params.all (fun p => tyOkB p.ty) = true →
      scopeOkB (params.foldl
        (fun sc p => symbol_table_add_ignore sc ⟨p.name, p.ty, false, []⟩) sc) =
        true := by
  intro params
  induction params with
  | nil => intro sc h _; simpa using h
  | cons p rest ih =>
      intro sc hsc hall
      simp only [List.all_cons, Bool.and_eq_true] at hall
      simp only [List.foldl_cons]
      exact ih _ (scopeOkB_add_ignore sc _ hsc (by simp [symOk, hall.1])) hall.2

theorem typeCheckPass2_exprsOk (globals : Scope) (hg : scopeOkB globals = true) :
    ∀ (funcs funcs1 : List ASTFunc),
      funcs.all (fun f => f.params.all (fun p => tyOkB p.ty)) = true →
      funcs.all (fun f => stmtNoPrint f.body) = true →
      typeCheckPass2 globals funcs = some funcs1 →
      funcs1.all (fun f => stmtExprsOk f.body) = true := by
  intro funcs
  induction funcs with
  | nil =>
      intro funcs1 _ _ h
      simp only [typeCheckPass2, Option.some.injEq] at h
      subst h
      simp
  | cons f rest ih =>
      intro funcs1 hpar hnp h
      simp only [typeCheckPass2] at h
      split at h
      · exact absurd h (by simp)
      · rename_i body1 scopes1 hbody
        split at h
        · exact absurd h (by simp)
        · rename_i rest1 hrest
          simp only [Option.some.injEq] at h
          subst h
          simp only [List.all_cons, Bool.and_eq_true] at hpar hnp
          have hfs : scopesOkB [buildFuncScope f.params, globals] = true := by
            have hb : scopeOkB (buildFuncScope f.params) = true :=
              buildFuncScope_scopeOk f.params [] rfl hpar.1
            simp [scopesOkB, hb, hg]
          have h1 := (check_statement_types_aux f.returnType
            (sizeOf f.body)).1 f.body le_rfl _ _ _ hfs hnp.1 hbody
          have h2 := ih rest1 hpar.2 hnp.2 hrest
          simp_all

/-- C3 (amended): if every function's declared return type and every
parameter type is `int` or `bool` and no function body calls the built-in
`print`, then after a successful `type_check_program` every expression
node of the typed AST carries type `int` or `bool`, never `void`. -/
theorem type_check_expr_types (prog prog' : ASTProgram)
    (hret : prog.functions.all (fun f => tyOkB f.returnType) = true)
    (hpar : prog.functions.all
      (fun f => f.params.all (fun p => tyOkB p.ty)) = true)
    (hnp : progNoPrint prog = true)
    (h : type_check_program prog = some prog') :
    progExprTysOk prog' = true := by
  simp only [type_check_program] at h
  split at h
  · exact absurd h (by simp)
  · rename_i globals hp1
    split at h
    · exact absurd h (by simp)
    · rename_i funcs1 hp2
      simp only [Option.some.injEq] at h
      subst h
      have hg : scopeOkB globals = true :=
        typeCheckPass1_scopeOk prog.functions _ globals (by decide) hret hp1
      have := typeCheckPass2_exprsOk globals hg prog.functions funcs1 hpar
        (by simpa [progNoPrint] using hnp) hp2
      simpa [progExprTysOk] using this

/-- C3 counterexample: `func main() : int { print(1); return 0; }` passes
`type_check_program`, and the typed AST it yields contains an expression
node whose type is `void` — the `print` call (visible in
`progPrChecked`), so not every expression node is typed `int` or
`bool`. -/
theorem print_call_checked_void :
    type_check_program progPr = some progPrChecked ∧
    progExprTysOk progPrChecked = false := by
  constructor
  · rfl
  · rfl

/-- C3 witness: the amended theorem applied to the print-free program
`func main() : int { var x = 1; return x; }`. -/
theorem type_check_expr_types_witness :
    progNoPrint progNP = true ∧ progExprTysOk progNPChecked = true :=
  ⟨by decide, type_check_expr_types progNP progNPChecked (by decide)
    (by decide) (by decide) (by rfl)⟩

set_option maxRecDepth 1000000 in
/-- C2: on the scenario-1 factorial source with `target =
TARGET_TINYLLVM`, the pipeline installs under `output_code` the output of
`generate_c_code` — it begins with `#include <stdio.h>` and not with
`declare void @print(i32)` — because `compiler_codegen_event` routes
`TARGET_TINYLLVM` to the C generator.  `generate_ir_code`, run directly
on the same typed AST, does produce the expected IR (`declare void
@print(i32)`, each function opened by a `define` line followed by
`entry:`, a `br label %L<n>` and a `ret i32 %t<n>`), but it is
unreachable from the event. -/
theorem codegen_target_dispatch_bug :
    parse_tokens (lex_source factorialSrc) = some factProgLit ∧
    type_check_program factProgLit = some factTypedLit ∧
    compile_pipeline factorialSrc (some ⟨.TARGET_TINYLLVM, false⟩) =
      some (generate_c_code factTypedLit (some ⟨.TARGET_TINYLLVM, false⟩)) ∧
    strStartsWith (generate_c_code factTypedLit (some ⟨.TARGET_TINYLLVM, false⟩))
      "#include <stdio.h>" = true ∧
    strStartsWith (generate_c_code factTypedLit (some ⟨.TARGET_TINYLLVM, false⟩))
      "declare void @print(i32)" = false ∧
    strStartsWith (generate_ir_code factTypedLit (some ⟨.TARGET_TINYLLVM, false⟩))
      "declare void @print(i32)\n\ndefine i32 @factorial(i32 %n.param) \x7b\nentry:\n" =
      true ∧
    strContains (generate_ir_code factTypedLit (some ⟨.TARGET_TINYLLVM, false⟩))
      "define i32 @main() \x7b\nentry:\n" = true ∧
    strContains (generate_ir_code factTypedLit (some ⟨.TARGET_TINYLLVM, false⟩))
      "br label %L" = true ∧
    strContains (generate_ir_code factTypedLit (some ⟨.TARGET_TINYLLVM, false⟩))
      "ret i32 %t" = true :=
  ⟨rfl, rfl, rfl, rfl, rfl, rfl, rfl, rfl, rfl⟩

/-- C4: the program `func f(a: int, a: int) : int { return 0; } func
main() : int { return 0; }` parses to an AST whose first function has two
parameters named `a`, and `type_check_program` accepts it unchanged
instead of reporting a duplicate-parameter error: the body pass discards
`symbol_table_add`'s return value when registering parameters, even
though `symbol_table_add` does signal the duplicate (last two
conjuncts). -/
theorem duplicate_params_accepted :
    parse_tokens (lex_source dupSrc) = some dupProgLit ∧
    (dupProgLit.functions.map
      (fun f => f.params.map Param.name)) = [["a", "a"], []] ∧
    type_check_program dupProgLit = some dupProgLit ∧
    buildFuncScope [⟨"a", .int⟩, ⟨"a", .int⟩] =
      [⟨"a", type_int, false, []⟩] ∧
    symbol_table_add [⟨"a", type_int, false, []⟩]
      ⟨"a", type_int, false, []⟩ = none :=
  ⟨rfl, rfl, rfl, rfl, rfl⟩

/-- C8: the parser records the provisional type `int` on every var
declaration it builds, and whenever `type_check_program` succeeds, every
var-decl statement of the typed AST has its declared type equal to the
checked type of its initializer expression (so a bool initializer yields a
bool-typed variable). -/
theorem var_decl_provisional_then_inferred :
    (∀ (fuel : Nat) (p : PState) (s : ASTStmt) (p' : PState),
      parse_var_decl fuel p = some (s, p') →
      ∃ name initExpr, s = ASTStmt.varDecl name type_int initExpr) ∧
    (∀ prog prog' : ASTProgram,
      type_check_program prog = some prog' →
      progVarDeclOk prog' = true) := by
  constructor
  · intro fuel p s p' h
    simp only [parse_var_decl] at h
    split at h
    · exact absurd h (by simp)
    · rename_i nameTok p1 _
      split at h
      · exact absurd h (by simp)
      · split at h
        · exact absurd h (by simp)
        · rename_i initExpr p3 _
          split at h
          · exact absurd h (by simp)
          · simp only [ast_stmt_var_decl, Option.some.injEq, Prod.mk.injEq] at h
            obtain ⟨hs, -⟩ := h
            exact ⟨nameTok.lexeme, initExpr, hs.symm⟩
  · intro prog prog' h
    simp only [type_check_program] at h
    split at h
    · exact absurd h (by simp)
    · rename_i globals hpass1
      split at h
      · exact absurd h (by simp)
      · rename_i funcs1 hpass2
        simp only [Option.some.injEq] at h
        subst h
        simpa [progVarDeclOk] using
          typeCheckPass2_vardecl globals prog.functions funcs1 hpass2

/-- C8 witness: the theorem applied to the token stream of `b = true;`
and to the concrete program `func main() : int { var b = true; return 0; }`,
whose checker run turns the provisional `int` into `bool`. -/
theorem var_decl_provisional_then_inferred_witness :
    (∃ name initExpr,
      ((parse_var_decl 32 pstateW).getD (ASTStmt.blockS [], pstateW)).1 =
        ASTStmt.varDecl name type_int initExpr) ∧
    progVarDeclOk progW' = true := by
  constructor
  · obtain ⟨name, initExpr, hs⟩ := var_decl_provisional_then_inferred.1 32 pstateW
      ((parse_var_decl 32 pstateW).getD (ASTStmt.blockS [], pstateW)).1
      ((parse_var_decl 32 pstateW).getD (ASTStmt.blockS [], pstateW)).2 (by rfl)
    exact ⟨name, initExpr, hs⟩
  · exact var_decl_provisional_then_inferred.2 progW progW' (by rfl)

end TinyLLVM

/-! Theorems settling the claims. -/

namespace EC

/-- C5 counterexample: while `is_executing` is set,
`event_chain_set_failure_handler` does not fail with `REENTRANCY` and does
not leave the chain unchanged — it succeeds and installs the handler (the
function has no `is_executing` check). -/
theorem set_failure_handler_ignores_reentrancy :
    (event_chain_set_failure_handler executingChain (some 7) 3).1 = EC_SUCCESS ∧
    (event_chain_set_failure_handler executingChain (some 7) 3).1 ≠
      EC_ERROR_REENTRANCY ∧
    (event_chain_set_failure_handler executingChain (some 7) 3).2 ≠
      executingChain := by
  decide

/-- C5 (amended): while `is_executing` is set, `event_chain_add_event` and
`event_chain_use_middleware` fail with `REENTRANCY` and leave the chain
unchanged, but `event_chain_set_failure_handler` succeeds and installs the
handler even during execution. -/
theorem chain_mutation_during_execution (chain : EventChain)
    (event middleware : Nat) (handler : Option Nat) (userData : Nat)
    (h : chain.isExecuting = true) :
    event_chain_add_event chain event = (EC_ERROR_REENTRANCY, chain) ∧
    event_chain_use_middleware chain middleware = (EC_ERROR_REENTRANCY, chain) ∧
    event_chain_set_failure_handler chain handler userData =
      (EC_SUCCESS,
        { chain with failureHandler := handler, failureHandlerData := userData }) := by
  refine ⟨?_, ?_, rfl⟩ <;>
    simp [event_chain_add_event, event_chain_use_middleware, h]

/-- C5 witness: the amended theorem applied to a concrete executing
chain. -/
theorem chain_mutation_during_execution_witness :
    event_chain_add_event executingChain 1 = (EC_ERROR_REENTRANCY, executingChain) ∧
    event_chain_use_middleware executingChain 2 =
      (EC_ERROR_REENTRANCY, executingChain) ∧
    event_chain_set_failure_handler executingChain (some 7) 3 =
      (EC_SUCCESS,
        { executingChain with failureHandler := some 7, failureHandlerData := 3 }) :=
  chain_mutation_during_execution executingChain 1 2 (some 7) 3 rfl

/-- The loop invariant of `executeEvents`: no failures means the flag is
still `true`, and the flag is `false` exactly when the last recorded
failure's continue-decision was `false`. -/
theorem executeEvents_spec (mode : FaultToleranceMode)
    (handler : Option FailureHandler) (evs : List (String × EventResult)) :
    ((executeEvents mode handler evs).1 = [] →
      (executeEvents mode handler evs).2 = true) ∧
    ((executeEvents mode handler evs).2 = false ↔
      ∃ fi, (executeEvents mode handler evs).1.getLast? = some fi ∧
        failureDecision mode handler fi = false) := by
  induction evs with
  | nil => simp [executeEvents]
  | cons ev rest ih =>
      obtain ⟨name, r⟩ := ev
      by_cases hs : r.success
      · simpa [executeEvents, hs] using ih
      · have hr : (⟨false, r.errorCode, r.errorMessage⟩ : EventResult) = r := by
          cases r with
          | mk s c m => simp_all
        have hdec :
            failureDecision mode handler ⟨name, r.errorMessage, r.errorCode⟩ =
              should_continue mode handler name r := by
          unfold failureDecision
          rw [hr]
        by_cases hc : should_continue mode handler name r = true
        · rcases hrest : executeEvents mode handler rest with ⟨fs, s⟩
          rw [hrest] at ih
          rcases fs with _ | ⟨f0, fs'⟩
          · have hs' : s = true := by simpa using ih.1
            subst hs'
            simp [executeEvents, hs, hc, hrest, hdec]
          · simp only [executeEvents, hs, Bool.false_eq_true, if_false, hc,
              if_true, hrest]
            refine ⟨by simp, ?_⟩
            rw [List.getLast?_cons_cons]
            simpa using ih.2
        · have hc' : should_continue mode handler name r = false := by
            simpa using hc
          simp [executeEvents, hs, hc', hdec]

/-- C1 counterexample: in `CUSTOM` mode with no registered handler, a
single failing event yields `success = false` with one recorded failure,
although the mode is not `STRICT` — refuting "in every other mode success
remains true even when failures were recorded". -/
theorem custom_mode_failure_sets_success_false :
    (event_chain_execute .CUSTOM none [("Evt", ⟨false, 2, "boom"⟩)]).success
        = false ∧
    (event_chain_execute .CUSTOM none [("Evt", ⟨false, 2, "boom"⟩)]).failures
        ≠ [] ∧
    FaultToleranceMode.CUSTOM ≠ FaultToleranceMode.STRICT := by
  refine ⟨rfl, by simp [event_chain_execute, executeEvents, should_continue], by decide⟩

/-- C1 (amended): for a non-reentrant execution, `ChainResult.success` is
`false` iff a failure was recorded whose continue-decision was `false`
(the stopping one is always the last recorded): in `STRICT` mode iff any
failure was recorded; in `LENIENT`/`BEST_EFFORT` success stays `true` even
with recorded failures; in `CUSTOM` mode iff the handler (absent handler →
stop) told the last recorded failure to stop. -/
theorem chain_success_iff_last_decision (mode : FaultToleranceMode)
    (handler : Option FailureHandler) (evs : List (String × EventResult)) :
    ((event_chain_execute mode handler evs).success = false ↔
      ∃ fi, (event_chain_execute mode handler evs).failures.getLast? = some fi ∧
        failureDecision mode handler fi = false) ∧
    (mode = .LENIENT ∨ mode = .BEST_EFFORT →
      (event_chain_execute mode handler evs).success = true) ∧
    (mode = .STRICT →
      ((event_chain_execute mode handler evs).success = false ↔
        (event_chain_execute mode handler evs).failures ≠ [])) := by
  have hspec := executeEvents_spec mode handler evs
  rcases hrun : executeEvents mode handler evs with ⟨fs, s⟩
  rw [hrun] at hspec
  simp only at hspec
  have hres : event_chain_execute mode handler evs =
      ⟨if 0 < fs.length ∧ mode = .STRICT then false else s, fs⟩ := by
    unfold event_chain_execute
    rw [hrun]
  have hmain :
      (event_chain_execute mode handler evs).success = false ↔
        ∃ fi, (event_chain_execute mode handler evs).failures.getLast? = some fi ∧
          failureDecision mode handler fi = false := by
    rw [hres]
    rcases fs with _ | ⟨f0, fs'⟩
    · have hs : s = true := hspec.1 rfl
      subst hs
      simp
    · by_cases hmode : mode = .STRICT
      · subst hmode
        obtain ⟨fi, hfi⟩ : ∃ fi, (f0 :: fs').getLast? = some fi := by
          cases h : (f0 :: fs').getLast? with
          | none => exact absurd (List.getLast?_eq_none_iff.mp h) (by simp)
          | some fi => exact ⟨fi, rfl⟩
        rw [if_pos ⟨Nat.succ_pos _, rfl⟩]
        simp only [hfi]
        exact iff_of_true trivial
          ⟨fi, rfl, by simp [failureDecision, should_continue]⟩
      · rw [if_neg (by simp [hmode])]
        exact hspec.2
  refine ⟨hmain, ?_, ?_⟩
  · intro hm
    by_contra hfalse
    have hsf : (event_chain_execute mode handler evs).success = false := by
      cases hsucc : (event_chain_execute mode handler evs).success
      · rfl
      · exact absurd hsucc hfalse
    obtain ⟨fi, _, hdec⟩ := hmain.1 hsf
    rcases hm with hm | hm <;> subst hm <;>
      simp [failureDecision, should_continue] at hdec
  · intro hm
    subst hm
    rw [hmain]
    constructor
    · rintro ⟨fi, hfi, _⟩
      intro hnil
      rw [hnil] at hfi
      simp at hfi
    · intro hne
      cases hlast : (event_chain_execute .STRICT handler evs).failures.getLast? with
      | none =>
          exact absurd (List.getLast?_eq_none_iff.mp hlast) hne
      | some fi =>
          exact ⟨fi, rfl, by simp [failureDecision, should_continue]⟩

theorem findEntryAux_none_iff (key : Key) :
    ∀ (l : List ContextEntry) (i : Nat),
      findEntryAux key l i = none ↔ ∀ e ∈ l, e.key ≠ key := by
  intro l
  induction l with
  | nil => intro i; simp [findEntryAux]
  | cons e rest ih =>
      intro i
      by_cases he : e.key = key
      · simp [findEntryAux, he]
      · simp [findEntryAux, he, ih (i + 1)]

theorem findEntryAux_some_range (key : Key) :
    ∀ (l : List ContextEntry) (i j : Nat),
      findEntryAux key l i = some j → i ≤ j ∧ j - i < l.length := by
  intro l
  induction l with
  | nil => intro i j h; simp [findEntryAux] at h
  | cons e rest ih =>
      intro i j h
      by_cases he : e.key = key
      · simp [findEntryAux, he] at h
        simp only [List.length_cons]
        omega
      · rw [show findEntryAux key (e :: rest) i = findEntryAux key rest (i + 1) by
          simp [findEntryAux, he]] at h
        have := ih (i + 1) j h
        simp only [List.length_cons]
        omega

theorem setValueAt_findEntryAux (key : Key) :
    ∀ (l : List ContextEntry) (j v : Nat) (i : Nat),
      findEntryAux key (setValueAt l j v) i = findEntryAux key l i := by
  intro l
  induction l with
  | nil => intro j v i; cases j <;> simp [setValueAt]
  | cons e rest ih =>
      intro j v i
      cases j with
      | zero => simp [setValueAt, findEntryAux]
      | succ j' => simp [setValueAt, findEntryAux, ih j' v (i + 1)]

theorem entryAt_setValueAt (l : List ContextEntry) :
    ∀ (i v : Nat), i < l.length →
      (entryAt (setValueAt l i v) i).value = v := by
  induction l with
  | nil => intro i v h; simp at h
  | cons e rest ih =>
      intro i v h
      cases i with
      | zero => simp [setValueAt, entryAt]
      | succ i' =>
          have : i' < rest.length := by simpa using h
          simpa [setValueAt, entryAt, List.getD] using ih i' v this

theorem findEntryAux_append_last (key : Key) (v : Nat) :
    ∀ (l : List ContextEntry) (i : Nat), (∀ e ∈ l, e.key ≠ key) →
      findEntryAux key (l ++ [⟨key, v⟩]) i = some (i + l.length) := by
  intro l
  induction l with
  | nil => intro i _; simp [findEntryAux]
  | cons e rest ih =>
      intro i hnone
      have he : e.key ≠ key := hnone e (by simp)
      have hrest : ∀ x ∈ rest, x.key ≠ key := fun x hx => hnone x (by simp [hx])
      have hstep : findEntryAux key ((e :: rest) ++ [⟨key, v⟩]) i =
          findEntryAux key (rest ++ [⟨key, v⟩]) (i + 1) := by
        simp [findEntryAux, he]
      rw [hstep, ih (i + 1) hrest]
      simp only [List.length_cons]
      congr 1
      omega

theorem entryAt_append_last (l : List ContextEntry) (e : ContextEntry) :
    entryAt (l ++ [e]) l.length = e := by
  induction l with
  | nil => simp [entryAt, List.getD]
  | cons x rest ih => simp_all [entryAt, List.getD]

/-- C7: after a successful `event_context_set`, `event_context_get` with
the same key returns exactly the stored payload, whether the set
overwrote an existing entry or appended a fresh one. -/
theorem context_set_then_get (ctx : EventContext) (k : Key) (v : Nat)
    (hk : wellFormedKey k) (ctx' : EventContext)
    (hset : event_context_set ctx k v = (EC_SUCCESS, ctx')) :
    event_context_get ctx' k = some v := by
  unfold event_context_set at hset
  rw [if_neg (by
    obtain ⟨h1, h2, _⟩ := hk
    omega)] at hset
  simp only at hset
  split at hset
  · exact absurd (congrArg Prod.fst hset)
      (by simp [EC_ERROR_MEMORY_LIMIT_EXCEEDED, EC_SUCCESS])
  · split at hset
    case h_1 idx hfind =>
      -- overwrite of an existing entry at index idx
      have hctx' : ctx' = { ctx with entries := setValueAt ctx.entries idx v } := by
        have := congrArg Prod.snd hset
        simpa using this.symm
      subst hctx'
      have hrange := findEntryAux_some_range k ctx.entries 0 idx hfind
      unfold event_context_get find_entry
      rw [setValueAt_findEntryAux]
      unfold find_entry at hfind
      rw [hfind]
      have hlt : idx < ctx.entries.length := by omega
      show some (entryAt (setValueAt ctx.entries idx v) idx).value = some v
      rw [entryAt_setValueAt ctx.entries idx v hlt]
    case h_2 hfind =>
      -- fresh entry appended at the end
      have hnotin : ∀ e ∈ ctx.entries, e.key ≠ k :=
        (findEntryAux_none_iff k ctx.entries 0).mp hfind
      rcases hec : ensure_capacity ctx with ⟨err, ctx1⟩
      rw [hec] at hset
      have hentries : ctx1.entries = ctx.entries := by
        unfold ensure_capacity at hec
        split at hec
        · cases hec; rfl
        · split at hec
          · cases hec; rfl
          · cases hec; rfl
      split at hset
      · rename_i hcond
        injection hset with h1 _
        exact absurd h1 hcond
      · have hctx' : ctx' = { ctx1 with
            entries := ctx1.entries ++ [⟨k, v⟩]
            totalMemory := ctx1.totalMemory + (k.length + 1 + sizeofRefCountedValue) } := by
          have := congrArg Prod.snd hset
          simpa using this.symm
        subst hctx'
        unfold event_context_get find_entry
        simp only [hentries]
        rw [findEntryAux_append_last k v ctx.entries 0 hnotin]
        simpa using congrArg ContextEntry.value
          (entryAt_append_last ctx.entries ⟨k, v⟩)

/-- C7 witness: a fresh context, one set, one get. -/
theorem context_set_then_get_witness :
    event_context_get (event_context_set event_context_create [10] 42).2 [10] =
      some 42 :=
  context_set_then_get event_context_create [10] 42 (by decide) _ (by decide)

/-- C6: on a context already holding `MAX_CONTEXT_ENTRIES` keys (capacity
can never exceed the cap), a set with a further distinct well-formed key
that passes the memory check fails with `CAPACITY_EXCEEDED` and leaves the
context — entries, count and memory counter — unchanged; and a set whose
memory accounting would pass `MAX_CONTEXT_MEMORY` fails with
`MEMORY_LIMIT_EXCEEDED`, likewise without side effect. -/
theorem context_set_capacity_and_memory_rejection (ctx : EventContext)
    (k : Key) (v : Nat) (hk : wellFormedKey k) :
    (ctx.entries.length = EVENTCHAINS_MAX_CONTEXT_ENTRIES →
      ctx.capacity ≤ EVENTCHAINS_MAX_CONTEXT_ENTRIES →
      find_entry ctx k = none →
      ctx.totalMemory + (k.length + 1 + sizeofRefCountedValue) ≤
        EVENTCHAINS_MAX_CONTEXT_MEMORY →
      event_context_set ctx k v = (EC_ERROR_CAPACITY_EXCEEDED, ctx)) ∧
    (EVENTCHAINS_MAX_CONTEXT_MEMORY <
        ctx.totalMemory + (k.length + 1 + sizeofRefCountedValue) →
      event_context_set ctx k v = (EC_ERROR_MEMORY_LIMIT_EXCEEDED, ctx)) := by
  obtain ⟨hk1, hk2, _⟩ := hk
  constructor
  · intro hcount hcap hfind hmem
    unfold event_context_set
    rw [if_neg (by omega)]
    simp only
    rw [if_neg (by
      simp only [EVENTCHAINS_MAX_CONTEXT_MEMORY] at hmem ⊢
      omega)]
    rw [hfind]
    have hec : ensure_capacity ctx = (EC_ERROR_CAPACITY_EXCEEDED, ctx) := by
      unfold ensure_capacity
      rw [if_neg (by omega), if_pos (by omega)]
    rw [hec]
    simp [EC_ERROR_CAPACITY_EXCEEDED, EC_SUCCESS]
  · intro hmem
    unfold event_context_set
    rw [if_neg (by omega)]
    simp only
    rw [if_pos (by
      simp only [EVENTCHAINS_MAX_CONTEXT_MEMORY] at hmem ⊢
      omega)]

theorem natOr_eq_zero_iff (a b : Nat) : a ||| b = 0 ↔ a = 0 ∧ b = 0 := by
  constructor
  · intro h
    have ha : a = 0 := Nat.eq_of_testBit_eq (fun i => by
      have := congrArg (fun n => n.testBit i) h
      simp [Nat.testBit_or] at this
      simp [this.1])
    have hb : b = 0 := Nat.eq_of_testBit_eq (fun i => by
      have := congrArg (fun n => n.testBit i) h
      simp [Nat.testBit_or] at this
      simp [this.2])
    exact ⟨ha, hb⟩
  · rintro ⟨rfl, rfl⟩
    simp

/-- For a NUL-free key, reading byte `i` gives 0 exactly at or beyond the
terminator. -/
theorem strGet_eq_zero_iff {s : Key} (h : validBytes s) (i : Nat) :
    strGet s i = 0 ↔ s.length ≤ i := by
  unfold strGet
  constructor
  · intro h0
    by_contra hlt
    push_neg at hlt
    rw [List.getD_eq_getElem _ _ hlt] at h0
    have := h _ (List.getElem_mem hlt)
    omega
  · intro hle
    exact List.getD_eq_default _ _ hle

theorem ctLoop_ne_zero (a b : Key) :
    ∀ fuel i r, r ≠ 0 → ctLoop a b fuel i r = false := by
  intro fuel
  induction fuel with
  | zero =>
      intro i r hr
      simp [ctLoop, hr]
  | succ n ih =>
      intro i r hr
      have hr2 : r ||| (strGet a i ^^^ strGet b i) ≠ 0 := by
        intro hc
        exact hr ((natOr_eq_zero_iff _ _).mp hc).1
      unfold ctLoop
      simp only
      split
      · exact decide_eq_false (fun hcon => hr2 hcon.1)
      · exact ih (i + 1) _ hr2

/-- The `constant_time_strcmp` loop decides equality of the suffixes from
position `i` on, provided the fuel covers both strings. -/
theorem ctLoop_spec {a b : Key} (ha : validBytes a) (hb : validBytes b) :
    ∀ fuel i, a.length ≤ i + fuel → b.length ≤ i + fuel →
      ctLoop a b fuel i 0 = decide (a.drop i = b.drop i) := by
  intro fuel
  induction fuel with
  | zero =>
      intro i hla hlb
      have hza : strGet a i = 0 := (strGet_eq_zero_iff ha i).mpr (by omega)
      have hzb : strGet b i = 0 := (strGet_eq_zero_iff hb i).mpr (by omega)
      rw [List.drop_eq_nil_of_le (by omega), List.drop_eq_nil_of_le (by omega)]
      simp [ctLoop, hza, hzb]
  | succ n ih =>
      intro i hla hlb
      unfold ctLoop
      simp only
      by_cases hxz : strGet a i = 0
      · have hia : a.length ≤ i := (strGet_eq_zero_iff ha i).mp hxz
        rw [if_pos (Or.inl hxz), List.drop_eq_nil_of_le hia]
        by_cases hyz : strGet b i = 0
        · have hib : b.length ≤ i := (strGet_eq_zero_iff hb i).mp hyz
          rw [List.drop_eq_nil_of_le hib]
          simp [hxz, hyz]
        · have hib : i < b.length := by
            by_contra hc
            push_neg at hc
            exact hyz ((strGet_eq_zero_iff hb i).mpr hc)
          have hdb : b.drop i ≠ [] := by
            intro hc
            have := List.drop_eq_nil_iff.mp hc
            omega
          have hxy : strGet a i ≠ strGet b i := by
            rw [hxz]
            exact fun hc => hyz hc.symm
          rw [decide_eq_false (fun hcon => hxy hcon.2),
            decide_eq_false (fun hcon => hdb hcon.symm)]
      · by_cases hyz : strGet b i = 0
        · have hib : b.length ≤ i := (strGet_eq_zero_iff hb i).mp hyz
          rw [if_pos (Or.inr hyz), List.drop_eq_nil_of_le hib]
          have hia : i < a.length := by
            by_contra hc
            push_neg at hc
            exact hxz ((strGet_eq_zero_iff ha i).mpr hc)
          have hda : a.drop i ≠ [] := by
            intro hc
            have := List.drop_eq_nil_iff.mp hc
            omega
          have hxy : strGet a i ≠ strGet b i := by
            rw [hyz]
            exact hxz
          rw [decide_eq_false (fun hcon => hxy hcon.2),
            decide_eq_false (fun hcon => hda hcon)]
        · have hia : i < a.length := by
            by_contra hc
            push_neg at hc
            exact hxz ((strGet_eq_zero_iff ha i).mpr hc)
          have hib : i < b.length := by
            by_contra hc
            push_neg at hc
            exact hyz ((strGet_eq_zero_iff hb i).mpr hc)
          rw [if_neg (by push_neg; exact ⟨hxz, hyz⟩)]
          have hga : strGet a i = a[i] := List.getD_eq_getElem _ _ hia
          have hgb : strGet b i = b[i] := List.getD_eq_getElem _ _ hib
          by_cases hxy : strGet a i = strGet b i
          · have hheads : a[i] = b[i] := by
              rw [← hga, ← hgb]
              exact hxy
            have hxor : strGet a i ^^^ strGet b i = 0 := by
              rw [hxy]
              simp
            rw [show (0 ||| (strGet a i ^^^ strGet b i)) = 0 by simp [hxor]]
            rw [ih (i + 1) (by omega) (by omega)]
            refine decide_eq_decide.mpr ?_
            rw [List.drop_eq_getElem_cons hia, List.drop_eq_getElem_cons hib]
            constructor
            · intro h
              rw [hheads, h]
            · intro h
              injection h with _ htail
          · have hheads : a[i] ≠ b[i] := by
              rw [← hga, ← hgb]
              exact hxy
            have hxor : strGet a i ^^^ strGet b i ≠ 0 :=
              fun hc => hxy (Nat.xor_eq_zero.mp hc)
            rw [ctLoop_ne_zero a b n (i + 1) _ (by simpa using hxor)]
            refine (decide_eq_false ?_).symm
            intro hcon
            rw [List.drop_eq_getElem_cons hia, List.drop_eq_getElem_cons hib] at hcon
            injection hcon with hhead _
            exact hheads hhead

/-- `constant_time_strcmp` with the `MAX_KEY_LENGTH` bound decides string
equality on representable keys. -/
theorem constant_time_strcmp_spec {a b : Key} (hka : cKeyOk a) (hkb : cKeyOk b) :
    constant_time_strcmp a b EVENTCHAINS_MAX_KEY_LENGTH = decide (a = b) := by
  unfold constant_time_strcmp
  have := ctLoop_spec hka.2 hkb.2 EVENTCHAINS_MAX_KEY_LENGTH 0
    (by simpa using hka.1) (by simpa using hkb.1)
  simpa using this

theorem findEntryAux_isSome (key : Key) :
    ∀ (l : List ContextEntry) (i : Nat),
      (findEntryAux key l i).isSome = l.any (fun e => e.key = key) := by
  intro l
  induction l with
  | nil => intro i; simp [findEntryAux]
  | cons e rest ih =>
      intro i
      by_cases he : e.key = key
      · simp [findEntryAux, he]
      · simp [findEntryAux, he, ih (i + 1)]

/-- C10: on representable stored keys and a representable query key,
`event_context_has` answers the same in constant-time mode (full walk
with `constant_time_strcmp`) and in standard mode (`find_entry`
short-circuit). -/
theorem context_has_modes_agree (ctx : EventContext) (k : Key)
    (hstored : ∀ e ∈ ctx.entries, cKeyOk e.key) (hk : cKeyOk k) :
    event_context_has ctx k true = event_context_has ctx k false := by
  unfold event_context_has
  have hfold : ∀ (l : List ContextEntry), (∀ e ∈ l, cKeyOk e.key) →
      ∀ (init : Bool),
        l.foldl
          (fun found e =>
            if constant_time_strcmp e.key k EVENTCHAINS_MAX_KEY_LENGTH then true
            else found)
          init = (init || l.any (fun e => e.key = k)) := by
    intro l hl
    induction l with
    | nil => intro init; simp
    | cons e rest ih =>
        intro init
        have hcmp : constant_time_strcmp e.key k EVENTCHAINS_MAX_KEY_LENGTH =
            decide (e.key = k) :=
          constant_time_strcmp_spec (hl e (by simp)) hk
        have hrest : ∀ x ∈ rest, cKeyOk x.key := fun x hx => hl x (by simp [hx])
        simp only [List.foldl_cons, hcmp, List.any_cons]
        rw [ih hrest]
        by_cases he : e.key = k <;> simp [he, Bool.or_assoc, Bool.or_comm]
  rw [if_pos rfl] at *
  rw [hfold ctx.entries hstored false]
  unfold find_entry
  rw [findEntryAux_isSome k ctx.entries 0]
  simp

/-- C10 witness: both lookup modes agree on a concrete context, for a
present and for an absent key. -/
theorem context_has_modes_agree_witness :
    event_context_has ctxHas [6, 7] true = event_context_has ctxHas [6, 7] false ∧
    event_context_has ctxHas [9] true = event_context_has ctxHas [9] false :=
  ⟨context_has_modes_agree ctxHas [6, 7] (by decide) (by decide),
    context_has_modes_agree ctxHas [9] (by decide) (by decide)⟩

set_option maxRecDepth 100000 in
/-- C6 witness: the rejection theorem applied to the full concrete
context (and to the same context with the memory counter near the cap). -/
theorem context_set_capacity_and_memory_rejection_witness :
    event_context_set ctx512 [77, 88] 5 = (EC_ERROR_CAPACITY_EXCEEDED, ctx512) ∧
    event_context_set { ctx512 with totalMemory := 10485750 } [77, 88] 5 =
      (EC_ERROR_MEMORY_LIMIT_EXCEEDED, { ctx512 with totalMemory := 10485750 }) :=
  ⟨(context_set_capacity_and_memory_rejection ctx512 [77, 88] 5 (by decide)).1
      (by decide) (by decide) (by decide) (by decide),
    (context_set_capacity_and_memory_rejection { ctx512 with totalMemory := 10485750 }
      [77, 88] 5 (by decide)).2 (by decide)⟩

end EC
